import Mathlib

/-!
The interop adapters of `PythonAPI/carla/source/libcarla/libcarla.cpp`.

A shallow embedding of the adapter layer between the native engine and the
embedded interpreter: the lock-released call adapters, the list- and
optional-returning adapters, `PythonLitstToVector`, `PrintList`,
`TimeDurationFromSeconds` and `MakeCallback`.

Stateful code is written in explicit state-passing style over a `World`
holding the lock flag of the calling thread, the native engine state, the
interpreter state, the interpreter error indicator, the interpreter error
stream and a trace of the observable steps.  C++ exceptions are the `error`
results of a computation; the world is kept on both paths, so that scope-exit
clean-up can run while an exception unwinds.
-/

namespace Libcarla

/-! ## Data model -/

/-- A scripting-side exception as the interpreter error indicator holds it:
the exception class and its message. -/
structure PyError where
  type : String
  message : String
deriving DecidableEq, Repr

/-- The ways a computation can end without returning:
`boost::python::error_already_set` is thrown (a scripting-side error is pending
in the error indicator), the native library throws, or the process ends, which
is not an exception: nothing catches it and no scope-exit clean-up follows it. -/
inductive Exn (E : Type) where
  | error_already_set : Exn E
  | thrown (e : E) : Exn E
  | exit : Exn E
deriving DecidableEq, Repr

/-- The observable steps of an adapter, each with the lock flag at that moment. -/
inductive Event (Obj : Type) where
  /-- the wrapped native method runs -/
  | nativeCall (gilHeld : Bool) : Event Obj
  /-- the constructor of a `boost::python::object` runs, for a native value to
  convert or for the none object -/
  | objectBuilt (gilHeld : Bool) : Event Obj
  /-- the scripting-side callable `callable` is invoked on `arg` -/
  | pyCall (callable arg : Obj) (gilHeld : Bool) : Event Obj
deriving DecidableEq, Repr

/-- The state an adapter runs in. `N` is the state of the native engine, `P` the
state of the interpreter, `Obj` the type of interop objects. -/
structure World (N P Obj : Type) where
  /-- whether the running thread holds the global interpreter lock -/
  gilHeld : Bool
  native : N
  python : P
  /-- the interpreter error indicator -/
  errIndicator : Option PyError
  /-- what `PyErr_Print` has written so far -/
  stderr : List PyError
  trace : List (Event Obj)
deriving DecidableEq, Repr

/-- The part of the embedded interpreter the file relies on. -/
structure Interp (Obj P : Type) where
  /-- the object a default-constructed `boost::python::object` holds -/
  none : Obj
  /-- `PyCallable_Check` -/
  callable : Obj → Bool
  /-- running a callable on one argument: the error it raised, if any, and the
  interpreter state afterwards -/
  invoke : Obj → Obj → P → Option PyError × P
  /-- whether an error is a `SystemExit`, on which `PyErr_Print` ends the process -/
  isSystemExit : PyError → Bool

/-- A computation over the world that returns a value or throws. -/
abbrev M (N P Obj E α : Type) : Type :=
  World N P Obj → Except (Exn E) α × World N P Obj

section Model

variable {N P Obj E α β R Self T1 T2 T3 T4 T5 : Type}

/-- Return without touching the world. -/
def M.pure (a : α) : M N P Obj E α := fun w => (.ok a, w)

/-- Sequencing: an exception of the first computation skips the second. -/
def M.bind (x : M N P Obj E α) (f : α → M N P Obj E β) : M N P Obj E β := fun w =>
  match x w with
  | (.ok a, w1) => f a w1
  | (.error e, w1) => (.error e, w1)

/-- Running a native method, a function of the native state that returns or
throws: the trace records the lock flag it runs under. -/
def callNative (method : N → Except E R × N) : M N P Obj E R := fun w =>
  let out := method w.native
  let w1 : World N P Obj :=
    { w with native := out.2, trace := w.trace ++ [Event.nativeCall w.gilHeld] }
  match out.1 with
  | .ok v => (.ok v, w1)
  | .error e => (.error (Exn.thrown e), w1)

/-- The constructor `boost::python::object(x)`, `conv` being what the to-python
conversion of `x` gives: the interop object that holds `x`, or the error the
conversion raises, which becomes the pending error while `error_already_set` is
thrown. For `boost::python::object()`, `conv` is the none object. The trace
records the lock flag the constructor runs under. -/
def object (conv : Except PyError Obj) : M N P Obj E Obj := fun w =>
  let w1 : World N P Obj := { w with trace := w.trace ++ [Event.objectBuilt w.gilHeld] }
  match conv with
  | .ok o => (.ok o, w1)
  | .error e => (.error Exn.error_already_set, { w1 with errIndicator := some e })

/-- Modelled from the spec: the scoped object `carla::PythonUtil::ReleaseGIL`,
declared in `carla/PythonUtil.h`. It releases the lock where it is declared and
reacquires it at scope exit, on normal return and while an exception unwinds;
nothing follows the end of the process. -/
def ReleaseGIL (body : M N P Obj E α) : M N P Obj E α := fun w =>
  let out := body { w with gilHeld := false }
  match out.1 with
  | .error Exn.exit => out
  | _ => (out.1, { out.2 with gilHeld := true })

/-- Modelled from the spec: the scoped object `carla::PythonUtil::AcquireGIL`,
declared in `carla/PythonUtil.h`. It acquires the lock where it is declared; at
scope exit, on normal return and while an exception unwinds, the thread is back
in the lock state it came with; nothing follows the end of the process. -/
def AcquireGIL (body : M N P Obj E α) : M N P Obj E α := fun w =>
  let out := body { w with gilHeld := true }
  match out.1 with
  | .error Exn.exit => out
  | _ => (out.1, { out.2 with gilHeld := w.gilHeld })

/-! ## Lock-released call adapters (lines 25-66) -/

/-- `CALL_WITHOUT_GIL(cls, fn)`. -/
def CALL_WITHOUT_GIL (fn : Self → N → Except E R × N) (self : Self) : M N P Obj E R :=
  ReleaseGIL (callNative (fn self))

/-- `CALL_WITHOUT_GIL_1(cls, fn, T1_)`. -/
def CALL_WITHOUT_GIL_1 (fn : Self → T1 → N → Except E R × N) (self : Self) (t1 : T1) :
    M N P Obj E R :=
  ReleaseGIL (callNative (fn self t1))

/-- `CALL_WITHOUT_GIL_2(cls, fn, T1_, T2_)`. -/
def CALL_WITHOUT_GIL_2 (fn : Self → T1 → T2 → N → Except E R × N) (self : Self)
    (t1 : T1) (t2 : T2) : M N P Obj E R :=
  ReleaseGIL (callNative (fn self t1 t2))

/-- `CALL_WITHOUT_GIL_3(cls, fn, T1_, T2_, T3_)`. -/
def CALL_WITHOUT_GIL_3 (fn : Self → T1 → T2 → T3 → N → Except E R × N) (self : Self)
    (t1 : T1) (t2 : T2) (t3 : T3) : M N P Obj E R :=
  ReleaseGIL (callNative (fn self t1 t2 t3))

/-- `CALL_WITHOUT_GIL_4(cls, fn, T1_, T2_, T3_, T4_)`. -/
def CALL_WITHOUT_GIL_4 (fn : Self → T1 → T2 → T3 → T4 → N → Except E R × N) (self : Self)
    (t1 : T1) (t2 : T2) (t3 : T3) (t4 : T4) : M N P Obj E R :=
  ReleaseGIL (callNative (fn self t1 t2 t3 t4))

/-- `CALL_WITHOUT_GIL_5(cls, fn, T1_, T2_, T3_, T4_, T5_)`. -/
def CALL_WITHOUT_GIL_5 (fn : Self → T1 → T2 → T3 → T4 → T5 → N → Except E R × N)
    (self : Self) (t1 : T1) (t2 : T2) (t3 : T3) (t4 : T4) (t5 : T5) : M N P Obj E R :=
  ReleaseGIL (callNative (fn self t1 t2 t3 t4 t5))

/-- `CONST_CALL_WITHOUT_GIL(cls, fn)`: `CALL_WITHOUT_GIL(const cls, fn)`. -/
def CONST_CALL_WITHOUT_GIL (fn : Self → N → Except E R × N) (self : Self) : M N P Obj E R :=
  CALL_WITHOUT_GIL fn self

/-! ## Optional-returning adapters (lines 18-21, 124-148) -/

/-- `OptionalToPythonObject`:
`optional.has_value() ? boost::python::object(*optional) : boost::python::object()`.
`toPython v` is what the to-python conversion of `v` gives. -/
def OptionalToPythonObject (py : Interp Obj P) (toPython : α → Except PyError Obj)
    (optional : Option α) : M N P Obj E Obj :=
  match optional with
  | some v => object (toPython v)
  | none => object (.ok py.none)

/-- `CALL_RETURNING_OPTIONAL(cls, fn)`. -/
def CALL_RETURNING_OPTIONAL (py : Interp Obj P) (toPython : α → Except PyError Obj)
    (fn : Self → N → Except E (Option α) × N) (self : Self) : M N P Obj E Obj :=
  M.bind (callNative (fn self)) fun optional =>
  OptionalToPythonObject py toPython optional

/-- `CALL_RETURNING_OPTIONAL_WITHOUT_GIL(cls, fn)`: the call goes through
`CONST_CALL_WITHOUT_GIL`, the result object is built by the conditional written
out in the body. -/
def CALL_RETURNING_OPTIONAL_WITHOUT_GIL (py : Interp Obj P)
    (toPython : α → Except PyError Obj)
    (fn : Self → N → Except E (Option α) × N) (self : Self) : M N P Obj E Obj :=
  let call : Self → M N P Obj E (Option α) := CONST_CALL_WITHOUT_GIL fn
  M.bind (call self) fun optional =>
  match optional with
  | some v => object (toPython v)
  | none => object (.ok py.none)

/-! ## Sequence adapters (lines 80-122) -/

/-- The range-for loop of the list-returning adapters: `result.append(item)`
builds the interop object of `item` and appends it to `result`; a conversion
that raises ends the loop. -/
def appendEach (toPython : α → Except PyError Obj) :
    List α → List Obj → M N P Obj E (List Obj)
  | [], result => M.pure result
  | item :: rest, result =>
      M.bind (object (toPython item)) fun o =>
      appendEach toPython rest (result ++ [o])

/-- `CALL_RETURNING_LIST(cls, fn)`. -/
def CALL_RETURNING_LIST (toPython : α → Except PyError Obj)
    (fn : Self → N → Except E (List α) × N)
    (self : Self) : M N P Obj E (List Obj) :=
  M.bind (callNative (fn self)) fun s =>
  appendEach toPython s []

/-- The expression `input[i]` on an interop list: an index outside the list raises. -/
def getItem (input : List Obj) (i : Nat) : M N P Obj E Obj := fun w =>
  match input[i]? with
  | some o => (.ok o, w)
  | none =>
      (.error Exn.error_already_set,
        { w with errIndicator := some ⟨"IndexError", "list index out of range"⟩ })

/-- The conversion `boost::python::extract<T>(o)` to a `T`: `conv o` is the value
`o` converts to, or the error the failed conversion raises. -/
def extract (conv : Obj → Except PyError α) (o : Obj) : M N P Obj E α := fun w =>
  match conv o with
  | .ok t => (.ok t, w)
  | .error e => (.error Exn.error_already_set, { w with errIndicator := some e })

/-- The counting loop of `PythonLitstToVector`, `remaining` being `list_size - i`. -/
def PythonLitstToVector.loop (conv : Obj → Except PyError α) (input : List Obj) :
    (remaining : Nat) → (i : Nat) → (result : List α) → M N P Obj E (List α)
  | 0, _, result => M.pure result
  | remaining + 1, i, result =>
      M.bind (getItem input i) fun o =>
      M.bind (extract conv o) fun t =>
      PythonLitstToVector.loop conv input remaining (i + 1) (result ++ [t])

/-- `PythonLitstToVector<T>`. -/
def PythonLitstToVector (conv : Obj → Except PyError α) (input : List Obj) :
    M N P Obj E (List α) :=
  let list_size := input.length
  PythonLitstToVector.loop conv input list_size 0 []

end Model

/-! ## Formatting helpers (lines 150-177) -/

/-- A `std::ostream` as a formatted insertion sees it. -/
structure OStream where
  /-- the characters written so far -/
  text : String
  /-- the pending field width, `width()` -/
  width : Nat
  /-- the fill character, `fill()` -/
  fill : Char
  /-- whether the adjustment is `left`; padding comes first otherwise -/
  left : Bool
  /-- whether no error flag is set, `good()` -/
  good : Bool
deriving DecidableEq, Repr

/-- A formatted insertion of characters, `out << c` or `out << "text"`: a stream
that is not good takes nothing; otherwise the characters go out padded with the
fill character to the pending field width, and the width is reset. The stream
buffer is one that takes every character. -/
def OStream.insert (out : OStream) (s : String) : OStream :=
  if out.good then
    let pad := String.mk (List.replicate (out.width - s.utf8ByteSize) out.fill)
    { out with text := out.text ++ (if out.left then s ++ pad else pad ++ s), width := 0 }
  else out

section Formatting

variable {α : Type}

/-- `PrintListItem_(out, item)` for a plain item: `out << item`, `insertItem`
being the `operator<<` of the item type. -/
def PrintListItem_ (insertItem : OStream → α → OStream) (out : OStream) (item : α) :
    OStream :=
  insertItem out item

/-- `PrintListItem_(out, item)` for a `carla::SharedPtr<T>`, a pointer that is
empty or points to a value. -/
def PrintListItem_SharedPtr (insertItem : OStream → α → OStream) (out : OStream)
    (item : Option α) : OStream :=
  match item with
  | none => out.insert "nullptr"
  | some v => insertItem out v

/-- `PrintList(out, list)`, `printItem` being the `PrintListItem_` overload chosen
for the item type. -/
def PrintList (printItem : OStream → α → OStream) (out : OStream) (list : List α) :
    OStream :=
  let out := out.insert "["
  let out :=
    match list with
    | [] => out
    | first :: rest =>
        rest.foldl (fun out item => printItem (out.insert ", ") item) (printItem out first)
  out.insert "]"

end Formatting

/-! ## Durations (lines 194-197) -/

/-- A finite `double`, the number `(-1)^neg * m * 2^e`. The binary64 format holds
those with `m < 2^53` and `-1074 ≤ e ≤ 971`; infinities and NaN are left out. -/
structure Double where
  neg : Bool
  m : Nat
  e : Int
deriving DecidableEq, Repr

/-- The number a `double` stands for. -/
def Double.toRat (d : Double) : ℚ :=
  (if d.neg then -1 else 1) * (d.m : ℚ) * (2 : ℚ) ^ d.e

/-- The integer nearest to `M / 2^t`, the even one of the two when `M / 2^t` lies
half-way: the rounding of binary64 arithmetic. -/
def roundHalfEven (M t : Nat) : Nat :=
  let q := M / 2 ^ t
  let r := M % 2 ^ t
  if 2 * r < 2 ^ t then q
  else if 2 ^ t < 2 * r then q + 1
  else if q % 2 = 0 then q
  else q + 1

/-- The number of bits of `M` beyond the 53 that a binary64 significand holds. -/
def excessBits (M : Nat) : Nat := (Nat.log2 M + 1) - 53

/-- The `double` product `1e3 * seconds`, `1e3` being the number 1000: the exact
product `1000 * m * 2^e` rounded to 53 significant bits, to nearest and to even
on a tie. A product too large for the format is left finite, where the machine
gives infinity; the cast below is undefined for both. -/
def Double.mul1e3 (seconds : Double) : Double :=
  let M := 1000 * seconds.m
  let t := excessBits M
  { neg := seconds.neg, m := roundHalfEven M t, e := seconds.e + t }

/-- The cast `static_cast<size_t>(d)`, `size_t` being 64 bits wide: the value is
truncated toward zero; the cast is undefined, `none`, when the truncated value
is not a `size_t`. -/
def static_cast_size_t (d : Double) : Option Nat :=
  let t := if 0 ≤ d.e then d.m * 2 ^ d.e.toNat else d.m / 2 ^ (-d.e).toNat
  if d.neg then
    if t = 0 then some 0 else none
  else if t < 2 ^ 64 then some t
  else none

/-- Modelled from the spec: `carla::time_duration`, declared in `carla/Time.h`,
which is not part of the sources. A duration is a number of milliseconds. -/
structure time_duration where
  count : Nat
deriving DecidableEq, Repr

/-- Modelled from the spec: `carla::time_duration::milliseconds(ms)`, the
duration of `ms` milliseconds. -/
def time_duration.milliseconds (ms : Nat) : time_duration := ⟨ms⟩

/-- `TimeDurationFromSeconds(seconds)`. -/
def TimeDurationFromSeconds (seconds : Double) : Option time_duration :=
  match static_cast_size_t seconds.mul1e3 with
  | some ms => some (time_duration.milliseconds ms)
  | none => none

/-! ## Callback registration (lines 199-220) -/

section Callback

variable {N P Obj E α : Type}

/-- `PyErr_SetString(type, message)`: sets the error indicator. -/
def PyErr_SetString (type message : String) : M N P Obj E Unit := fun w =>
  (.ok (), { w with errIndicator := some ⟨type, message⟩ })

/-- `boost::python::throw_error_already_set()`. -/
def throw_error_already_set : M N P Obj E α := fun w =>
  (.error Exn.error_already_set, w)

/-- `PyErr_Print()`: on a pending `SystemExit` the interpreter ends the process,
and what it writes on the way out is left out; any other pending error is
written to the error stream and the indicator is cleared. -/
def PyErr_Print (py : Interp Obj P) : M N P Obj E Unit := fun w =>
  match w.errIndicator with
  | some e =>
      if py.isSystemExit e then (.error Exn.exit, w)
      else (.ok (), { w with stderr := w.stderr ++ [e], errIndicator := none })
  | none => (.ok (), w)

/-- `boost::python::call<void>(callable, arg)`: runs the callable; an error it
raises becomes the pending error and `error_already_set` is thrown. -/
def call (py : Interp Obj P) (callable arg : Obj) : M N P Obj E Unit := fun w =>
  let out := py.invoke callable arg w.python
  let w1 : World N P Obj :=
    { w with python := out.2, trace := w.trace ++ [Event.pyCall callable arg w.gilHeld] }
  match out.1 with
  | none => (.ok (), w1)
  | some e => (.error Exn.error_already_set, { w1 with errIndicator := some e })

/-- The block `try body catch (const error_already_set &) handler`: everything
else passes through. -/
def tryCatch (body handler : M N P Obj E α) : M N P Obj E α := fun w =>
  match body w with
  | (.error Exn.error_already_set, w1) => handler w1
  | out => out

/-- `MakeCallback(callback)`: the callable check, then the closure over the
callback. `toPython message` is what the to-python conversion of `message` gives. -/
def MakeCallback {Msg : Type} (py : Interp Obj P) (toPython : Msg → Except PyError Obj)
    (callback : Obj) : M N P Obj E (Msg → M N P Obj E Unit) :=
  M.bind
    (if !py.callable callback then
      M.bind (PyErr_SetString "TypeError" "callback argument must be callable!") fun _ =>
      throw_error_already_set
    else M.pure ()) fun _ =>
  M.pure fun message =>
    AcquireGIL
      (tryCatch
        (M.bind (object (toPython message)) fun arg => call py callback arg)
        (PyErr_Print py))

end Callback

/-! ## A concrete interpreter, for evaluating the adapters -/

/-- A small universe of interop objects; a byte string holds its bytes. -/
inductive PyValue where
  | none : PyValue
  | int (n : Int) : PyValue
  | str (s : String) : PyValue
  | bytes (b : List Nat) : PyValue
  | func (id : Nat) : PyValue
deriving DecidableEq, Repr

/-- An interpreter over `PyValue` whose state counts the calls made: functions
are the callables; function `0` returns, function `2` raises `SystemExit`, every
other function raises a `RuntimeError`. -/
def samplePy : Interp PyValue Nat where
  none := PyValue.none
  callable := fun o => match o with
    | PyValue.func _ => true
    | _ => false
  invoke := fun f _ calls => match f with
    | PyValue.func 0 => (Option.none, calls + 1)
    | PyValue.func 2 => (some ⟨"SystemExit", "0"⟩, calls + 1)
    | PyValue.func _ => (some ⟨"RuntimeError", "raised by the callback"⟩, calls + 1)
    | _ => (some ⟨"TypeError", "object is not callable"⟩, calls)
  isSystemExit := fun e => decide (e.type = "SystemExit")

/-- A world in which the running thread holds the lock. -/
def sampleWorld : World Nat Nat PyValue :=
  { gilHeld := true, native := 0, python := 0, errIndicator := Option.none,
    stderr := [], trace := [] }

/-- A native method that counts its calls and returns the count before the call;
it throws once the count has reached three. -/
def sampleMethod (_self : Unit) (n : Nat) : Except String Nat × Nat :=
  if n < 3 then (.ok n, n + 1) else (.error "engine stopped", n)

/-- The to-python conversion of a native integer, which always succeeds. -/
def intToPython (n : Int) : Except PyError PyValue := .ok (PyValue.int n)

/-- Whether a byte is a continuation byte of UTF-8. -/
def utf8Continuation (b : Nat) : Bool := decide (0x80 ≤ b ∧ b < 0xC0)

/-- Strict UTF-8 decoding of a sequence of bytes, `fuel` bounding the number of
characters: `none` when the bytes are not UTF-8. -/
def utf8Decode : (fuel : Nat) → List Nat → Option (List Char)
  | _, [] => some []
  | 0, _ :: _ => Option.none
  | fuel + 1, b0 :: rest =>
      if b0 < 0x80 then
        (utf8Decode fuel rest).map (List.cons (Char.ofNat b0))
      else if 0xC2 ≤ b0 ∧ b0 < 0xE0 then
        match rest with
        | b1 :: rest1 =>
            if utf8Continuation b1 then
              (utf8Decode fuel rest1).map
                (List.cons (Char.ofNat ((b0 - 0xC0) * 64 + (b1 - 0x80))))
            else Option.none
        | _ => Option.none
      else if 0xE0 ≤ b0 ∧ b0 < 0xF0 then
        match rest with
        | b1 :: b2 :: rest2 =>
            let cp := (b0 - 0xE0) * 4096 + (b1 - 0x80) * 64 + (b2 - 0x80)
            if utf8Continuation b1 ∧ utf8Continuation b2 ∧ 0x800 ≤ cp ∧
                ¬ (0xD800 ≤ cp ∧ cp < 0xE000) then
              (utf8Decode fuel rest2).map (List.cons (Char.ofNat cp))
            else Option.none
        | _ => Option.none
      else if 0xF0 ≤ b0 ∧ b0 < 0xF5 then
        match rest with
        | b1 :: b2 :: b3 :: rest3 =>
            let cp := (b0 - 0xF0) * 262144 + (b1 - 0x80) * 4096 + (b2 - 0x80) * 64 +
              (b3 - 0x80)
            if utf8Continuation b1 ∧ utf8Continuation b2 ∧ utf8Continuation b3 ∧
                0x10000 ≤ cp ∧ cp < 0x110000 then
              (utf8Decode fuel rest3).map (List.cons (Char.ofNat cp))
            else Option.none
        | _ => Option.none
      else Option.none

/-- The UTF-8 bytes of a character. -/
def utf8Encode (c : Char) : List Nat :=
  let n := c.toNat
  if n < 0x80 then [n]
  else if n < 0x800 then [0xC0 + n / 64, 0x80 + n % 64]
  else if n < 0x10000 then [0xE0 + n / 4096, 0x80 + n / 64 % 64, 0x80 + n % 64]
  else [0xF0 + n / 262144, 0x80 + n / 4096 % 64, 0x80 + n / 64 % 64, 0x80 + n % 64]

/-- The to-python conversion of a native string, a sequence of bytes, as under
Python 3: the text object of its UTF-8 decoding, or a `UnicodeDecodeError` when
the bytes are not UTF-8. -/
def stringToPython (s : List Nat) : Except PyError PyValue :=
  match utf8Decode s.length s with
  | some chars => .ok (PyValue.str (String.mk chars))
  | Option.none => .error ⟨"UnicodeDecodeError", "invalid utf-8 in native string"⟩

/-- The conversion of an interop object to a native string, as under Python 3:
a text object gives its UTF-8 bytes, a byte string its bytes, and every other
object is rejected. -/
def stringFromPython (o : PyValue) : Except PyError (List Nat) :=
  match o with
  | PyValue.str s => .ok (s.data.flatMap utf8Encode)
  | PyValue.bytes b => .ok b
  | _ => .error ⟨"TypeError", "no conversion to a native string"⟩

/-- A native method that returns the given value and leaves the engine as it is. -/
def sampleReturn {α : Type} (v : α) (_self : Unit) (n : Nat) : Except String α × Nat :=
  (.ok v, n)

/-- A stream with nothing written, in the state a new stream is in. -/
def sampleStream : OStream :=
  { text := "", width := 0, fill := ' ', left := false, good := true }

/-- The `double` nearest to 0.29, `5224175567749775 / 2^54`. -/
def double_0_29 : Double := { neg := false, m := 5224175567749775, e := -54 }

/-- The `double` 72057594037929, whose product with 1000 lies half-way between
two neighbouring values of 53 significant bits. -/
def double_tie : Double := { neg := false, m := 72057594037929, e := 0 }

/-- The `double` 1.5. -/
def double_1_5 : Double := { neg := false, m := 3, e := -1 }

/-- The `double` 2. -/
def double_2 : Double := { neg := false, m := 2, e := 0 }

/-- The `double` `2^-10`, a little below a millisecond. -/
def double_2_pow_neg_10 : Double := { neg := false, m := 1, e := -10 }

/-! ## Statements -/

section Statements

variable {N P Obj E α β R Self T1 T2 T3 T4 T5 : Type}

/-- What a lock-released call of `method` amounts to, from the world `w`: the
result is the one of `method`, the native method ran with the lock not held,
the lock is held at the end and nothing but the native state and the trace has
changed. -/
def LockReleasedCall (adapter : M N P Obj E R) (method : N → Except E R × N)
    (w : World N P Obj) : Prop :=
  (adapter w).1 = (method w.native).1.mapError Exn.thrown ∧
  (adapter w).2.gilHeld = true ∧
  (adapter w).2.trace = w.trace ++ [Event.nativeCall false] ∧
  (adapter w).2 =
    { w with native := (method w.native).2, trace := w.trace ++ [Event.nativeCall false] }

/-- The adapter run from `w` mirrors the native sequence `s`. When every item of
`s` converts, it returns an interop list of the length of `s` that holds at
every index the object the item of `s` there converts to. When some item does
not convert, it throws `error_already_set`. -/
def ReturnsListOf (toPython : α → Except PyError Obj) (adapter : M N P Obj E (List Obj))
    (s : List α) (w : World N P Obj) : Prop :=
  ((∀ x ∈ s, ∃ o, toPython x = .ok o) →
    ∃ result : List Obj, (adapter w).1 = .ok result ∧
      s.map toPython = result.map Except.ok ∧
      result.length = s.length ∧
      ∀ (i : Nat) (hi : i < s.length),
        ∃ o, result[i]? = some o ∧ toPython (s.get ⟨i, hi⟩) = .ok o) ∧
  ((∃ x ∈ s, ∃ e, toPython x = .error e) → (adapter w).1 = .error Exn.error_already_set)

/-- The outcome `r` is the interop image of the native optional `o`: the object
`v` converts to when `o` holds a `v` that converts, `error_already_set` when `o`
holds a `v` that does not convert, the none object when `o` is empty; and, where
no value converts to the none object, it is the none object only if `o` is
empty. -/
def OptionalImage (py : Interp Obj P) (toPython : α → Except PyError Obj) (o : Option α)
    (r : Except (Exn E) Obj) : Prop :=
  (∀ v ov, o = some v → toPython v = .ok ov → r = .ok ov) ∧
  (∀ v e, o = some v → toPython v = .error e → r = .error Exn.error_already_set) ∧
  (o = none → r = .ok py.none) ∧
  ((∀ v, toPython v ≠ .ok py.none) → (r = .ok py.none ↔ o = none))

/-- The outcome of building the interop object of the native optional `o`. -/
def optionalOutcome (py : Interp Obj P) (toPython : α → Except PyError Obj) (o : Option α) :
    Except (Exn E) Obj :=
  match o with
  | some v =>
      (match toPython v with
        | .ok ov => .ok ov
        | .error _ => .error Exn.error_already_set)
  | none => .ok py.none

/-- The pending error after building the interop object of the native optional
`o`, `ei` being the pending error before. -/
def optionalPending (toPython : α → Except PyError Obj) (o : Option α)
    (ei : Option PyError) : Option PyError :=
  match o with
  | some v =>
      (match toPython v with
        | .ok _ => ei
        | .error e => some e)
  | none => ei

/-- The natural number `A` rounded to 53 significant bits, to nearest and to even
on a tie. -/
def round53 (A : Nat) : Nat := roundHalfEven A (excessBits A) * 2 ^ excessBits A

/-- The inserter `insertItem` of an item type writes the text `text item` of an
item: on a good stream with no pending field width it appends that text and
leaves the stream in that state. -/
def Inserts (insertItem : OStream → α → OStream) (text : α → String) : Prop :=
  ∀ (out : OStream) (item : α), out.good = true → out.width = 0 →
    insertItem out item = { out with text := out.text ++ text item }

/-- The text of a shared pointer in a list: `nullptr` for an empty pointer, the
text of the value it points to otherwise. -/
def pointerText (text : α → String) (item : Option α) : String :=
  match item with
  | none => "nullptr"
  | some v => text v

end Statements

/-! ## Properties -/

section Properties

variable {N P Obj E α β R Self T1 T2 T3 T4 T5 : Type}

theorem releaseGIL_callNative (method : N → Except E R × N) (w : World N P Obj)
    (h : w.gilHeld = true) :
    LockReleasedCall (ReleaseGIL (callNative method)) method w := by
  obtain ⟨g, n, p, e, s, t⟩ := w
  simp only at h
  subst h
  unfold LockReleasedCall ReleaseGIL callNative
  cases hm : (method n).1 <;> simp [hm, Except.mapError]

/-- C5: entered with the lock held, each lock-released call adapter
(`CALL_WITHOUT_GIL` and `_1` to `_5`) runs the native method with the lock not
held, holds the lock again when it returns, whether the method returned or
threw, and its result is the result of the method. -/
theorem call_without_gil_restores_lock (w : World N P Obj) (h : w.gilHeld = true) :
    (∀ (fn : Self → N → Except E R × N) (self : Self),
      LockReleasedCall (CALL_WITHOUT_GIL fn self) (fn self) w) ∧
    (∀ (fn : Self → T1 → N → Except E R × N) (self : Self) (t1 : T1),
      LockReleasedCall (CALL_WITHOUT_GIL_1 fn self t1) (fn self t1) w) ∧
    (∀ (fn : Self → T1 → T2 → N → Except E R × N) (self : Self) (t1 : T1) (t2 : T2),
      LockReleasedCall (CALL_WITHOUT_GIL_2 fn self t1 t2) (fn self t1 t2) w) ∧
    (∀ (fn : Self → T1 → T2 → T3 → N → Except E R × N) (self : Self) (t1 : T1) (t2 : T2)
        (t3 : T3),
      LockReleasedCall (CALL_WITHOUT_GIL_3 fn self t1 t2 t3) (fn self t1 t2 t3) w) ∧
    (∀ (fn : Self → T1 → T2 → T3 → T4 → N → Except E R × N) (self : Self) (t1 : T1)
        (t2 : T2) (t3 : T3) (t4 : T4),
      LockReleasedCall (CALL_WITHOUT_GIL_4 fn self t1 t2 t3 t4) (fn self t1 t2 t3 t4) w) ∧
    (∀ (fn : Self → T1 → T2 → T3 → T4 → T5 → N → Except E R × N) (self : Self) (t1 : T1)
        (t2 : T2) (t3 : T3) (t4 : T4) (t5 : T5),
      LockReleasedCall (CALL_WITHOUT_GIL_5 fn self t1 t2 t3 t4 t5)
        (fn self t1 t2 t3 t4 t5) w) :=
  ⟨fun fn self => releaseGIL_callNative (fn self) w h,
   fun fn self t1 => releaseGIL_callNative (fn self t1) w h,
   fun fn self t1 t2 => releaseGIL_callNative (fn self t1 t2) w h,
   fun fn self t1 t2 t3 => releaseGIL_callNative (fn self t1 t2 t3) w h,
   fun fn self t1 t2 t3 t4 => releaseGIL_callNative (fn self t1 t2 t3 t4) w h,
   fun fn self t1 t2 t3 t4 t5 => releaseGIL_callNative (fn self t1 t2 t3 t4 t5) w h⟩

/-- The lock-released call of `sampleMethod` from `sampleWorld`, where the lock
is held. -/
theorem call_without_gil_restores_lock_witness :
    sampleWorld.gilHeld = true ∧
    LockReleasedCall (CALL_WITHOUT_GIL sampleMethod ()) (sampleMethod ()) sampleWorld :=
  ⟨rfl,
    (@call_without_gil_restores_lock Nat Nat PyValue String Nat Unit Unit Unit Unit Unit Unit
      sampleWorld rfl).1 sampleMethod ()⟩

theorem appendEach_converts (toPython : α → Except PyError Obj) (s : List α)
    (result : List Obj) (w : World N P Obj)
    (hall : ∀ x ∈ s, ∃ o, toPython x = .ok o) :
    ∃ objs : List Obj,
      appendEach toPython s result w =
        ((.ok (result ++ objs) : Except (Exn E) (List Obj)),
          { w with
            trace := w.trace ++ List.replicate s.length (Event.objectBuilt w.gilHeld) }) ∧
      List.Forall₂ (fun x o => toPython x = .ok o) s objs := by
  induction s generalizing result w with
  | nil => exact ⟨[], by simp [appendEach, M.pure], List.Forall₂.nil⟩
  | cons item rest ih =>
      obtain ⟨o, ho⟩ := hall item (List.mem_cons_self _ _)
      obtain ⟨objs, hrun, hf⟩ := ih (result ++ [o])
        { w with trace := w.trace ++ [Event.objectBuilt w.gilHeld] }
        (fun x hx => hall x (List.mem_cons_of_mem _ hx))
      refine ⟨o :: objs, ?_, List.Forall₂.cons ho hf⟩
      simp only [appendEach, M.bind, object, ho]
      rw [hrun]
      simp [List.replicate_succ]

theorem appendEach_fails (toPython : α → Except PyError Obj) (s : List α)
    (result : List Obj) (w : World N P Obj)
    (hbad : ∃ x ∈ s, ∃ e, toPython x = .error e) :
    ((appendEach toPython s result : M N P Obj E (List Obj)) w).1 =
      .error Exn.error_already_set := by
  induction s generalizing result w with
  | nil =>
      obtain ⟨x, hx, _⟩ := hbad
      cases hx
  | cons item rest ih =>
      cases hc : toPython item with
      | error e => simp [appendEach, M.bind, object, hc]
      | ok o =>
          simp only [appendEach, M.bind, object, hc]
          apply ih
          obtain ⟨x, hx, e, he⟩ := hbad
          rcases List.mem_cons.1 hx with heq | hmem
          · subst heq
            rw [hc] at he
            cases he
          · exact ⟨x, hmem, e, he⟩

theorem forall₂_ok_index {β γ : Type} (conv : β → Except PyError γ) (xs : List β)
    (ys : List γ) (hf : List.Forall₂ (fun x y => conv x = .ok y) xs ys) :
    xs.map conv = ys.map Except.ok ∧ ys.length = xs.length ∧
      ∀ (i : Nat) (hi : i < xs.length),
        ∃ y, ys[i]? = some y ∧ conv (xs.get ⟨i, hi⟩) = .ok y := by
  have hlen : ys.length = xs.length := hf.length_eq.symm
  have hget := (List.forall₂_iff_get.1 hf).2
  refine ⟨?_, hlen, ?_⟩
  · apply List.ext_get (by simp [hlen])
    intro i h1 h2
    have hi : i < xs.length := by simpa using h1
    have hi2 : i < ys.length := by simpa using h2
    simpa using hget i hi hi2
  · intro i hi
    have hi2 : i < ys.length := by omega
    exact ⟨ys.get ⟨i, hi2⟩, by simp [List.getElem?_eq_getElem hi2], hget i hi hi2⟩

theorem returnsListOf_of_call (toPython : α → Except PyError Obj)
    (method : N → Except E (List α) × N)
    (w : World N P Obj) (s : List α) (n : N) (h : method w.native = (.ok s, n)) :
    ReturnsListOf toPython
      (M.bind (callNative method) fun s => appendEach toPython s [] : M N P Obj E (List Obj))
      s w := by
  constructor
  · intro hall
    obtain ⟨objs, hrun, hf⟩ := @appendEach_converts N P Obj E α toPython s []
      { w with native := n, trace := w.trace ++ [Event.nativeCall w.gilHeld] } hall
    obtain ⟨hmap, hlen, hidx⟩ := forall₂_ok_index toPython s objs hf
    refine ⟨objs, ?_, hmap, hlen, hidx⟩
    simp only [M.bind, callNative, h]
    rw [hrun]
    simp
  · intro hbad
    simp only [M.bind, callNative, h]
    exact appendEach_fails toPython s [] _ hbad

theorem optionalImage_of_eq (py : Interp Obj P) (toPython : α → Except PyError Obj)
    (o : Option α) (r : Except (Exn E) Obj)
    (hr : r = optionalOutcome py toPython o) :
    OptionalImage py toPython o r := by
  subst hr
  cases o with
  | none => simp [OptionalImage, optionalOutcome]
  | some v =>
      refine ⟨?_, ?_, by simp, ?_⟩
      · intro v1 ov h1 h2
        cases h1
        simp [optionalOutcome, h2]
      · intro v1 e h1 h2
        cases h1
        simp [optionalOutcome, h2]
      · intro hne
        simp only [reduceCtorEq, iff_false, optionalOutcome]
        cases hc : toPython v with
        | error e => simp
        | ok ov =>
            simp only [Except.ok.injEq]
            intro heq
            exact hne v (by rw [hc, heq])

/-- C7, amended: entered with the lock held, `CALL_RETURNING_OPTIONAL_WITHOUT_GIL`
has the outcome of `CALL_RETURNING_OPTIONAL`, the interop image of the optional
the wrapped method returned or what the method threw, and leaves the same
native state and pending error; the native method runs with the lock not held,
the lock is held when the result object is constructed and when the adapter
returns. -/
theorem call_returning_optional_without_gil_refines (py : Interp Obj P)
    (toPython : α → Except PyError Obj)
    (fn : Self → N → Except E (Option α) × N) (self : Self) (w : World N P Obj)
    (h : w.gilHeld = true) :
    (CALL_RETURNING_OPTIONAL_WITHOUT_GIL py toPython fn self w).1 =
      (CALL_RETURNING_OPTIONAL py toPython fn self w).1 ∧
    (CALL_RETURNING_OPTIONAL_WITHOUT_GIL py toPython fn self w).2.native =
      (CALL_RETURNING_OPTIONAL py toPython fn self w).2.native ∧
    (CALL_RETURNING_OPTIONAL_WITHOUT_GIL py toPython fn self w).2.errIndicator =
      (CALL_RETURNING_OPTIONAL py toPython fn self w).2.errIndicator ∧
    (CALL_RETURNING_OPTIONAL_WITHOUT_GIL py toPython fn self w).2.gilHeld = true ∧
    (∀ o, (fn self w.native).1 = .ok o →
      OptionalImage py toPython o
        (CALL_RETURNING_OPTIONAL_WITHOUT_GIL py toPython fn self w).1 ∧
      (CALL_RETURNING_OPTIONAL_WITHOUT_GIL py toPython fn self w).2.trace =
        w.trace ++ [Event.nativeCall false, Event.objectBuilt true]) ∧
    (∀ e, (fn self w.native).1 = .error e →
      (CALL_RETURNING_OPTIONAL_WITHOUT_GIL py toPython fn self w).1 = .error (Exn.thrown e) ∧
      (CALL_RETURNING_OPTIONAL_WITHOUT_GIL py toPython fn self w).2.trace =
        w.trace ++ [Event.nativeCall false]) := by
  obtain ⟨g, n, p, ei, se, t⟩ := w
  simp only at h
  subst h
  cases hm : (fn self n).1 with
  | error e =>
      simp [CALL_RETURNING_OPTIONAL_WITHOUT_GIL, CALL_RETURNING_OPTIONAL,
        CONST_CALL_WITHOUT_GIL, CALL_WITHOUT_GIL, ReleaseGIL, callNative, M.bind, hm]
  | ok o =>
      have hrun : (CALL_RETURNING_OPTIONAL_WITHOUT_GIL py toPython fn self
          ⟨true, n, p, ei, se, t⟩ : Except (Exn E) Obj × World N P Obj) =
          (optionalOutcome py toPython o,
           { gilHeld := true, native := (fn self n).2, python := p,
             errIndicator := optionalPending toPython o ei, stderr := se,
             trace := t ++ [Event.nativeCall false, Event.objectBuilt true] }) := by
        cases o with
        | none =>
            simp [CALL_RETURNING_OPTIONAL_WITHOUT_GIL, CONST_CALL_WITHOUT_GIL,
              CALL_WITHOUT_GIL, ReleaseGIL, callNative, M.bind, hm, object, optionalOutcome,
              optionalPending]
        | some v =>
            cases hc : toPython v <;>
              simp [CALL_RETURNING_OPTIONAL_WITHOUT_GIL, CONST_CALL_WITHOUT_GIL,
                CALL_WITHOUT_GIL, ReleaseGIL, callNative, M.bind, hm, object, hc,
                optionalOutcome, optionalPending]
      have hplain : (CALL_RETURNING_OPTIONAL py toPython fn self
          ⟨true, n, p, ei, se, t⟩ : Except (Exn E) Obj × World N P Obj) =
          (optionalOutcome py toPython o,
           { gilHeld := true, native := (fn self n).2, python := p,
             errIndicator := optionalPending toPython o ei, stderr := se,
             trace := t ++ [Event.nativeCall true, Event.objectBuilt true] }) := by
        cases o with
        | none =>
            simp [CALL_RETURNING_OPTIONAL, OptionalToPythonObject, callNative, M.bind, hm,
              object, optionalOutcome, optionalPending]
        | some v =>
            cases hc : toPython v <;>
              simp [CALL_RETURNING_OPTIONAL, OptionalToPythonObject, callNative, M.bind, hm,
                object, hc, optionalOutcome, optionalPending]
      rw [hrun, hplain]
      refine ⟨rfl, rfl, rfl, rfl, ?_, ?_⟩
      · intro o1 ho1
        cases ho1
        exact ⟨optionalImage_of_eq py toPython o _ rfl, rfl⟩
      · intro e he
        cases he

/-- The lock-released optional adapter from `sampleWorld`, over a method that
returns the integer 7. -/
theorem call_returning_optional_without_gil_refines_witness :
    sampleWorld.gilHeld = true ∧
    (CALL_RETURNING_OPTIONAL_WITHOUT_GIL samplePy intToPython (sampleReturn (some (7 : Int)))
        () sampleWorld).1 =
      (CALL_RETURNING_OPTIONAL samplePy intToPython (sampleReturn (some (7 : Int))) ()
        sampleWorld).1 ∧
    (sampleReturn (some (7 : Int)) () sampleWorld.native).1 = .ok (some 7) ∧
    intToPython 7 = .ok (PyValue.int 7) ∧
    (CALL_RETURNING_OPTIONAL_WITHOUT_GIL samplePy intToPython (sampleReturn (some (7 : Int)))
        () sampleWorld).1 = .ok (PyValue.int 7) ∧
    (CALL_RETURNING_OPTIONAL_WITHOUT_GIL samplePy intToPython (sampleReturn (some (7 : Int)))
        () sampleWorld).2.trace =
      sampleWorld.trace ++ [Event.nativeCall false, Event.objectBuilt true] :=
  ⟨rfl,
    (call_returning_optional_without_gil_refines samplePy intToPython
      (sampleReturn (some (7 : Int))) () sampleWorld rfl).1,
    rfl, rfl,
    ((call_returning_optional_without_gil_refines samplePy intToPython
      (sampleReturn (some (7 : Int))) () sampleWorld rfl).2.2.2.2.1 (some 7) rfl).1.1 7 _ rfl rfl,
    ((call_returning_optional_without_gil_refines samplePy intToPython
      (sampleReturn (some (7 : Int))) () sampleWorld rfl).2.2.2.2.1 (some 7) rfl).2⟩

/-- C7, as stated, fails: the wrapped method returns a present value, a native
string that is not UTF-8; the adapter returns no interop value for it, it
throws with the conversion error pending, as `CALL_RETURNING_OPTIONAL` does. -/
theorem call_returning_optional_without_gil_conversion_raises :
    sampleWorld.gilHeld = true ∧
    (sampleReturn (some [255]) () sampleWorld.native).1 = .ok (some [255]) ∧
    (CALL_RETURNING_OPTIONAL_WITHOUT_GIL samplePy stringToPython (sampleReturn (some [255]))
        () sampleWorld).1 = .error Exn.error_already_set ∧
    (CALL_RETURNING_OPTIONAL samplePy stringToPython (sampleReturn (some [255]))
        () sampleWorld).1 = .error Exn.error_already_set ∧
    ¬ ∃ r : PyValue,
      (CALL_RETURNING_OPTIONAL_WITHOUT_GIL samplePy stringToPython
        (sampleReturn (some [255])) () sampleWorld).1 = .ok r := by
  refine ⟨rfl, rfl, rfl, rfl, ?_⟩
  rintro ⟨r, h⟩
  have h2 : (Except.error Exn.error_already_set : Except (Exn String) PyValue) = .ok r := h
  cases h2

/-- C3: `MakeCallback` throws exactly when its argument is not callable. For an
argument that is not callable it throws with a `TypeError` pending and changes
nothing else: no closure is returned, the native state and the trace are as
before. For a callable argument it returns a closure and changes nothing. -/
theorem makeCallback_type_error_iff {Msg : Type} (py : Interp Obj P)
    (toPython : Msg → Except PyError Obj)
    (callback : Obj) (w : World N P Obj) :
    ((∃ e, ((MakeCallback py toPython callback : M N P Obj E _) w).1 = .error e) ↔
      py.callable callback = false) ∧
    (py.callable callback = false →
      (MakeCallback py toPython callback : M N P Obj E _) w =
        (.error Exn.error_already_set,
          { w with
            errIndicator := some ⟨"TypeError", "callback argument must be callable!"⟩ })) ∧
    (py.callable callback = true →
      ∃ closure, (MakeCallback py toPython callback : M N P Obj E _) w = (.ok closure, w)) := by
  cases hc : py.callable callback <;>
    simp [MakeCallback, M.bind, M.pure, PyErr_SetString, throw_error_already_set, hc]

/-- An integer is not callable and is rejected; function `0` is callable and is
accepted. -/
theorem makeCallback_type_error_iff_witness :
    samplePy.callable (PyValue.int 5) = false ∧
    (MakeCallback samplePy intToPython (PyValue.int 5) : M Nat Nat PyValue String _)
        sampleWorld =
      (.error Exn.error_already_set,
        { sampleWorld with
          errIndicator := some ⟨"TypeError", "callback argument must be callable!"⟩ }) ∧
    samplePy.callable (PyValue.func 0) = true ∧
    ∃ closure, (MakeCallback samplePy intToPython (PyValue.func 0) :
      M Nat Nat PyValue String _) sampleWorld = (.ok closure, sampleWorld) :=
  ⟨rfl,
    (@makeCallback_type_error_iff Nat Nat PyValue String Int samplePy intToPython
      (PyValue.int 5) sampleWorld).2.1 rfl,
    rfl,
    (@makeCallback_type_error_iff Nat Nat PyValue String Int samplePy intToPython
      (PyValue.func 0) sampleWorld).2.2 rfl⟩

theorem insert_default (out : OStream) (s : String) (hgood : out.good = true)
    (hwidth : out.width = 0) :
    out.insert s = { out with text := out.text ++ s } := by
  obtain ⟨t, wd, f, l, g⟩ := out
  simp only at hgood hwidth
  subst hgood hwidth
  have hpad : String.mk (List.replicate (0 - s.utf8ByteSize) f) = "" := by
    rw [Nat.zero_sub]
    rfl
  cases l <;> simp [OStream.insert, hpad]

theorem intercalate_go_append (pre acc sep : String) (l : List String) :
    String.intercalate.go (pre ++ acc) sep l = pre ++ String.intercalate.go acc sep l := by
  induction l generalizing acc with
  | nil => simp [String.intercalate.go]
  | cons a rest ih =>
      simp only [String.intercalate.go]
      rw [String.append_assoc, String.append_assoc, ← String.append_assoc acc]
      exact ih _

theorem printList_foldl (insertItem : OStream → α → OStream) (text : α → String)
    (hins : Inserts insertItem text) (rest : List α) (o : OStream) (pre acc : String)
    (hgood : o.good = true) (hwidth : o.width = 0) (htext : o.text = pre ++ acc) :
    rest.foldl (fun out item => PrintListItem_ insertItem (out.insert ", ") item) o =
      { o with text := pre ++ String.intercalate.go acc ", " (rest.map text) } := by
  induction rest generalizing o acc with
  | nil =>
      simp only [List.foldl_nil, List.map_nil, String.intercalate.go]
      rw [← htext]
  | cons item rest ih =>
      simp only [List.foldl_cons, List.map_cons, String.intercalate.go, PrintListItem_]
      rw [insert_default o ", " hgood hwidth,
        hins { o with text := o.text ++ ", " } item hgood hwidth]
      exact ih { o with text := o.text ++ ", " ++ text item } (acc ++ ", " ++ text item)
        hgood hwidth
        (by
          simp only
          rw [htext, String.append_assoc, String.append_assoc, String.append_assoc])

theorem printList_eq (insertItem : OStream → α → OStream) (text : α → String)
    (hins : Inserts insertItem text) (out : OStream) (hgood : out.good = true)
    (hwidth : out.width = 0) (list : List α) :
    PrintList (PrintListItem_ insertItem) out list =
      { out with text := out.text ++ "[" ++ ", ".intercalate (list.map text) ++ "]" } := by
  cases list with
  | nil =>
      simp only [PrintList, List.map_nil, String.intercalate, String.append_empty]
      rw [insert_default out "[" hgood hwidth,
        insert_default { out with text := out.text ++ "[" } "]" hgood hwidth]
  | cons first rest =>
      simp only [PrintList, List.map_cons, String.intercalate, PrintListItem_]
      rw [insert_default out "[" hgood hwidth,
        hins { out with text := out.text ++ "[" } first hgood hwidth]
      have hfold := printList_foldl insertItem text hins rest
        { out with text := out.text ++ "[" ++ text first } (out.text ++ "[") (text first)
        hgood hwidth rfl
      have hlast := insert_default
        { out with
          text := out.text ++ "[" ++ String.intercalate.go (text first) ", " (rest.map text) }
        "]" hgood hwidth
      exact (congrArg (fun o => OStream.insert o "]") hfold).trans hlast

theorem inserts_sharedPtr (insertItem : OStream → α → OStream) (text : α → String)
    (hins : Inserts insertItem text) :
    Inserts (PrintListItem_SharedPtr insertItem) (pointerText text) := by
  intro out item hgood hwidth
  cases item with
  | none => exact insert_default out "nullptr" hgood hwidth
  | some v => exact hins out v hgood hwidth

/-- C8, amended: on a stream that is good and has no pending field width, for
items whose inserter writes their text, `PrintList` appends `[`, the texts of
the items in source order with `, ` between consecutive items, and `]`, and
leaves the stream in that state: `[]` for the empty sequence, no separator for
a single item. In a sequence of shared pointers an empty pointer is written as
`nullptr`, any other as the text of the value it points to. -/
theorem printList_format (insertItem : OStream → α → OStream) (text : α → String)
    (hins : Inserts insertItem text) (out : OStream) (hgood : out.good = true)
    (hwidth : out.width = 0) :
    (∀ list : List α, PrintList (PrintListItem_ insertItem) out list =
      { out with text := out.text ++ "[" ++ ", ".intercalate (list.map text) ++ "]" }) ∧
    PrintList (PrintListItem_ insertItem) out [] = { out with text := out.text ++ "[]" } ∧
    (∀ x : α, PrintList (PrintListItem_ insertItem) out [x] =
      { out with text := out.text ++ "[" ++ text x ++ "]" }) ∧
    (∀ (x y : α) (rest : List α), PrintList (PrintListItem_ insertItem) out (x :: y :: rest) =
      { out with
        text := out.text ++ "[" ++ text x ++ ", " ++
          ", ".intercalate ((y :: rest).map text) ++ "]" }) ∧
    (∀ list : List (Option α), PrintList (PrintListItem_SharedPtr insertItem) out list =
      { out with
        text := out.text ++ "[" ++ ", ".intercalate (list.map (pointerText text)) ++ "]" }) ∧
    pointerText text none = "nullptr" ∧
    (∀ v : α, pointerText text (some v) = text v) := by
  refine ⟨printList_eq insertItem text hins out hgood hwidth, ?_, ?_, ?_, ?_, rfl,
    fun _ => rfl⟩
  · rw [printList_eq insertItem text hins out hgood hwidth]
    simp [String.intercalate, String.append_assoc]
  · intro x
    rw [printList_eq insertItem text hins out hgood hwidth]
    simp [String.intercalate, String.intercalate.go]
  · intro x y rest
    rw [printList_eq insertItem text hins out hgood hwidth]
    simp only [List.map_cons, String.intercalate, String.intercalate.go]
    rw [String.append_assoc (text x), intercalate_go_append, intercalate_go_append]
    simp only [String.append_assoc]
  · intro list
    exact printList_eq (PrintListItem_SharedPtr insertItem) (pointerText text)
      (inserts_sharedPtr insertItem text hins) out hgood hwidth list

/-- Lists of strings, inserted as strings are, on a new stream. -/
theorem printList_format_witness :
    Inserts OStream.insert (fun s : String => s) ∧
    sampleStream.good = true ∧ sampleStream.width = 0 ∧
    PrintList (PrintListItem_ OStream.insert) sampleStream ["a", "b", "c"] =
      { sampleStream with
        text := sampleStream.text ++ "[" ++ ", ".intercalate ["a", "b", "c"] ++ "]" } ∧
    PrintList (PrintListItem_SharedPtr OStream.insert) sampleStream [some "a", none] =
      { sampleStream with
        text := sampleStream.text ++ "[" ++
          ", ".intercalate ([some "a", none].map (pointerText fun s : String => s)) ++ "]" } :=
  have hins : Inserts OStream.insert (fun s : String => s) :=
    fun out item hgood hwidth => insert_default out item hgood hwidth
  ⟨hins, rfl, rfl,
    (printList_format OStream.insert (fun s : String => s) hins sampleStream rfl rfl).1
      ["a", "b", "c"],
    (printList_format OStream.insert (fun s : String => s) hins sampleStream rfl
      rfl).2.2.2.2.1 [some "a", none]⟩

/-- C8, as stated, fails: on a stream with a pending field width of 3 the
bracket is padded, so a one-item sequence is written as two fill characters
before `[a]`; and a stream that is not good takes nothing. -/
theorem printList_pads_or_writes_nothing :
    (PrintList (PrintListItem_ OStream.insert) { sampleStream with width := 3 } ["a"]).text =
      "  [a]" ∧
    (PrintList (PrintListItem_ OStream.insert) { sampleStream with width := 3 } ["a"]).text ≠
      "[a]" ∧
    (PrintList (PrintListItem_ OStream.insert) { sampleStream with good := false }
      ["a"]).text = "" := by
  refine ⟨by decide, by decide, by decide⟩

theorem loop_converts (conv : Obj → Except PyError α) (input : List Obj)
    (remaining i : Nat) (result : List α) (w : World N P Obj)
    (hlen : i + remaining = input.length)
    (hall : ∀ o ∈ input.drop i, ∃ t, conv o = .ok t) :
    ∃ v : List α,
      (PythonLitstToVector.loop conv input remaining i result : M N P Obj E _) w =
        (.ok (result ++ v), w) ∧
      List.Forall₂ (fun o t => conv o = .ok t) (input.drop i) v := by
  induction remaining generalizing i result with
  | zero =>
      refine ⟨[], by simp [PythonLitstToVector.loop, M.pure], ?_⟩
      have hi : input.drop i = [] := List.drop_eq_nil_of_le (by omega)
      rw [hi]
      exact List.Forall₂.nil
  | succ k ih =>
      have hi : i < input.length := by omega
      have hdrop : input.drop i = input[i] :: input.drop (i + 1) :=
        List.drop_eq_getElem_cons hi
      obtain ⟨t, ht⟩ := hall input[i] (by rw [hdrop]; exact List.mem_cons_self _ _)
      obtain ⟨v, hv, hf⟩ := ih (i + 1) (result ++ [t]) (by omega)
        (fun o ho => hall o (by rw [hdrop]; exact List.mem_cons_of_mem _ ho))
      refine ⟨t :: v, ?_, ?_⟩
      · simp only [PythonLitstToVector.loop, M.bind, getItem, List.getElem?_eq_getElem hi,
          extract, ht]
        rw [hv]
        simp
      · rw [hdrop]
        exact List.Forall₂.cons ht hf

theorem loop_fails (conv : Obj → Except PyError α) (input : List Obj)
    (remaining i : Nat) (result : List α) (w : World N P Obj)
    (hlen : i + remaining = input.length)
    (hbad : ∃ o ∈ input.drop i, ∃ e, conv o = .error e) :
    ((PythonLitstToVector.loop conv input remaining i result : M N P Obj E _) w).1 =
      .error Exn.error_already_set := by
  induction remaining generalizing i result with
  | zero =>
      have hi : input.drop i = [] := List.drop_eq_nil_of_le (by omega)
      obtain ⟨o, ho, _⟩ := hbad
      rw [hi] at ho
      cases ho
  | succ k ih =>
      have hi : i < input.length := by omega
      have hdrop : input.drop i = input[i] :: input.drop (i + 1) :=
        List.drop_eq_getElem_cons hi
      cases hc : conv input[i] with
      | error e =>
          simp [PythonLitstToVector.loop, M.bind, getItem, List.getElem?_eq_getElem hi,
            extract, hc]
      | ok t =>
          simp only [PythonLitstToVector.loop, M.bind, getItem, List.getElem?_eq_getElem hi,
            extract, hc]
          apply ih (i + 1) (result ++ [t]) (by omega)
          obtain ⟨o, ho, e, he⟩ := hbad
          rw [hdrop] at ho
          rcases List.mem_cons.1 ho with heq | hmem
          · subst heq
            rw [hc] at he
            cases he
          · exact ⟨o, hmem, e, he⟩

/-- C9, amended: when every element of the interop list converts,
`PythonLitstToVector` returns a vector of the same length whose element at each
index is the conversion of the list element there, and leaves the world as it
was; a list-returning adapter fed that vector mirrors it, and returns the
original list when every element of it is the object its own conversion converts
back to. When some element does not convert, the call throws and returns no
vector. -/
theorem pythonLitstToVector_converts (conv : Obj → Except PyError α)
    (toPython : α → Except PyError Obj)
    (input : List Obj) (w : World N P Obj) :
    ((∀ o ∈ input, ∃ t, conv o = .ok t) →
      ∃ v : List α,
        (PythonLitstToVector conv input : M N P Obj E _) w = (.ok v, w) ∧
        v.length = input.length ∧
        (∀ (i : Nat) (hi : i < input.length),
          ∃ t, v[i]? = some t ∧ conv (input.get ⟨i, hi⟩) = .ok t) ∧
        ∀ (fn : Self → N → Except E (List α) × N) (self : Self) (n : N),
          fn self w.native = (.ok v, n) →
          ReturnsListOf toPython (CALL_RETURNING_LIST toPython fn self) v w ∧
          ((∀ o ∈ input, ∀ t, conv o = .ok t → toPython t = .ok o) →
            (CALL_RETURNING_LIST toPython fn self w).1 = .ok input)) ∧
    ((∃ o ∈ input, ∃ e, conv o = .error e) →
      ((PythonLitstToVector conv input : M N P Obj E _) w).1 =
        .error Exn.error_already_set) := by
  constructor
  · intro hall
    obtain ⟨v, hv, hf⟩ := @loop_converts N P Obj E α conv input input.length 0 [] w (by simp)
      (by simpa using hall)
    rw [List.drop_zero] at hf
    obtain ⟨_, hlen, hidx⟩ := forall₂_ok_index conv input v hf
    have hget := (List.forall₂_iff_get.1 hf).2
    refine ⟨v, by simpa [PythonLitstToVector] using hv, hlen, hidx, ?_⟩
    intro fn self n hfn
    have hmirror : ReturnsListOf toPython (CALL_RETURNING_LIST toPython fn self) v w :=
      returnsListOf_of_call toPython (fn self) w v n hfn
    refine ⟨hmirror, ?_⟩
    intro hinv
    have hback : v.map toPython = input.map Except.ok := by
      apply List.ext_get (by simp [hlen])
      intro i h1 h2
      have hi : i < input.length := by simpa using h2
      have hi2 : i < v.length := by simpa using h1
      have := hinv (input.get ⟨i, hi⟩) (List.get_mem _ _ _) (v.get ⟨i, hi2⟩) (hget i hi hi2)
      simpa using this
    have hallv : ∀ x ∈ v, ∃ o, toPython x = .ok o := by
      intro x hx
      have hmem : toPython x ∈ v.map toPython := List.mem_map_of_mem _ hx
      rw [hback] at hmem
      obtain ⟨o, _, ho⟩ := List.mem_map.1 hmem
      exact ⟨o, ho.symm⟩
    obtain ⟨result, hres, hmap, _, _⟩ := hmirror.1 hallv
    rw [hres]
    have hinj : Function.Injective (Except.ok : Obj → Except PyError Obj) := by
      intro a b hab
      cases hab
      rfl
    have : result = input := (List.map_injective_iff.2 hinj) (hmap.symm.trans hback)
    rw [this]
  · intro hbad
    exact loop_fails conv input input.length 0 [] w (by simp) (by simpa using hbad)

/-- A list of two text objects converts and comes back as it was; a list holding
an integer does not convert. -/
theorem pythonLitstToVector_converts_witness :
    (∀ o ∈ [PyValue.str "a", PyValue.str "b"], ∃ t, stringFromPython o = .ok t) ∧
    (∀ o ∈ [PyValue.str "a", PyValue.str "b"], ∀ t,
      stringFromPython o = .ok t → stringToPython t = .ok o) ∧
    (∃ v : List (List Nat),
      (PythonLitstToVector stringFromPython [PyValue.str "a", PyValue.str "b"] :
        M Nat Nat PyValue String _) sampleWorld = (.ok v, sampleWorld) ∧
      (CALL_RETURNING_LIST stringToPython (sampleReturn v) () sampleWorld).1 =
        .ok [PyValue.str "a", PyValue.str "b"]) ∧
    (∃ o ∈ [PyValue.str "a", PyValue.int 1], ∃ e, stringFromPython o = .error e) ∧
    ((PythonLitstToVector stringFromPython [PyValue.str "a", PyValue.int 1] :
      M Nat Nat PyValue String _) sampleWorld).1 = .error Exn.error_already_set := by
  have hall : ∀ o ∈ [PyValue.str "a", PyValue.str "b"], ∃ t, stringFromPython o = .ok t := by
    intro o ho
    simp only [List.mem_cons, List.mem_singleton, List.not_mem_nil, or_false] at ho
    rcases ho with rfl | rfl <;> exact ⟨_, rfl⟩
  have hinv : ∀ o ∈ [PyValue.str "a", PyValue.str "b"], ∀ t,
      stringFromPython o = .ok t → stringToPython t = .ok o := by
    intro o ho t ht
    simp only [List.mem_cons, List.mem_singleton, List.not_mem_nil, or_false] at ho
    rcases ho with rfl | rfl
    · have h2 : (Except.ok [97] : Except PyError (List Nat)) = .ok t := ht
      cases h2
      rfl
    · have h2 : (Except.ok [98] : Except PyError (List Nat)) = .ok t := ht
      cases h2
      rfl
  have hbad : ∃ o ∈ [PyValue.str "a", PyValue.int 1], ∃ e, stringFromPython o = .error e :=
    ⟨PyValue.int 1, by simp, _, rfl⟩
  obtain ⟨v, hv, _, _, hrt⟩ :=
    (@pythonLitstToVector_converts Nat Nat PyValue String (List Nat) Unit stringFromPython
      stringToPython [PyValue.str "a", PyValue.str "b"] sampleWorld).1 hall
  exact ⟨hall, hinv, ⟨v, hv, (hrt (sampleReturn v) () 0 rfl).2 hinv⟩, hbad,
    (@pythonLitstToVector_converts Nat Nat PyValue String (List Nat) Unit stringFromPython
      stringToPython [PyValue.str "a", PyValue.int 1] sampleWorld).2 hbad⟩

/-- C9, as stated, fails: the byte string `ab` converts to a native string, and
the list adapter returns the text object `ab` for it, which is not the byte
string the list held. -/
theorem pythonLitstToVector_round_trip_fails :
    (∀ o ∈ [PyValue.bytes [97, 98]], ∃ t, stringFromPython o = .ok t) ∧
    (PythonLitstToVector stringFromPython [PyValue.bytes [97, 98]] :
      M Nat Nat PyValue String _) sampleWorld = (.ok [[97, 98]], sampleWorld) ∧
    (CALL_RETURNING_LIST stringToPython (sampleReturn [[97, 98]]) () sampleWorld).1 =
      .ok [PyValue.str "ab"] ∧
    (CALL_RETURNING_LIST stringToPython (sampleReturn [[97, 98]]) () sampleWorld).1 ≠
      .ok [PyValue.bytes [97, 98]] := by
  refine ⟨?_, rfl, rfl, ?_⟩
  · intro o ho
    simp only [List.mem_singleton] at ho
    subst ho
    exact ⟨_, rfl⟩
  · intro h
    have h2 : (Except.ok [PyValue.str "ab"] : Except (Exn String) (List PyValue)) =
        .ok [PyValue.bytes [97, 98]] := h
    simp at h2

theorem roundHalfEven_bounds (M t : Nat) :
    M / 2 ^ t ≤ roundHalfEven M t ∧ roundHalfEven M t ≤ M / 2 ^ t + 1 := by
  unfold roundHalfEven
  simp only
  split_ifs <;> omega

theorem roundHalfEven_zero (M : Nat) : roundHalfEven M 0 = M := by
  simp [roundHalfEven, Nat.mod_one]

theorem roundHalfEven_of_dvd (M t : Nat) (h : 2 ^ t ∣ M) : roundHalfEven M t = M / 2 ^ t := by
  have hr : M % 2 ^ t = 0 := Nat.mod_eq_zero_of_dvd h
  have hpos : 0 < 2 ^ t := Nat.pow_pos (by norm_num)
  simp [roundHalfEven, hr, hpos]

theorem roundHalfEven_mono (M M' t : Nat) (h : M ≤ M') :
    roundHalfEven M t ≤ roundHalfEven M' t := by
  have hpos : 0 < 2 ^ t := Nat.pow_pos (by norm_num)
  have hq : M / 2 ^ t ≤ M' / 2 ^ t := Nat.div_le_div_right h
  rcases Nat.lt_or_ge (M / 2 ^ t) (M' / 2 ^ t) with hlt | hge
  · have h1 := (roundHalfEven_bounds M t).2
    have h2 := (roundHalfEven_bounds M' t).1
    omega
  · have heq : M / 2 ^ t = M' / 2 ^ t := le_antisymm hq hge
    have hr : M % 2 ^ t ≤ M' % 2 ^ t := by
      have e1 := Nat.div_add_mod M (2 ^ t)
      have e2 := Nat.div_add_mod M' (2 ^ t)
      rw [heq] at e1
      omega
    unfold roundHalfEven
    simp only
    rw [heq]
    split_ifs <;> omega

theorem roundHalfEven_tie_even (M t : Nat) (h : 2 * (M % 2 ^ t) = 2 ^ t) :
    roundHalfEven M t % 2 = 0 := by
  unfold roundHalfEven
  simp only
  split_ifs <;> omega

theorem roundHalfEven_error (M t : Nat) :
    2 * (roundHalfEven M t * 2 ^ t) ≤ 2 * M + 2 ^ t ∧
    2 * M ≤ 2 * (roundHalfEven M t * 2 ^ t) + 2 ^ t := by
  have hpos : 0 < 2 ^ t := Nat.pow_pos (by norm_num)
  have e1 := Nat.div_add_mod M (2 ^ t)
  have hlt := Nat.mod_lt M hpos
  generalize hq : M / 2 ^ t = q at *
  generalize hr : M % 2 ^ t = r at *
  generalize hp : 2 ^ t = p at *
  unfold roundHalfEven
  simp only [hq, hr, hp]
  split_ifs <;> constructor <;> nlinarith

theorem roundHalfEven_scale (M t k : Nat) :
    roundHalfEven (M * 2 ^ k) (t + k) = roundHalfEven M t := by
  have hpos : 0 < 2 ^ k := Nat.pow_pos (by norm_num)
  have hq : M * 2 ^ k / 2 ^ (t + k) = M / 2 ^ t := by
    rw [pow_add]
    exact Nat.mul_div_mul_right _ _ hpos
  have hr : M * 2 ^ k % 2 ^ (t + k) = M % 2 ^ t * 2 ^ k := by
    rw [pow_add]
    exact Nat.mul_mod_mul_right _ _ _
  unfold roundHalfEven
  simp only [hq, hr]
  have h1 : (2 * (M % 2 ^ t * 2 ^ k) < 2 ^ (t + k)) ↔ (2 * (M % 2 ^ t) < 2 ^ t) := by
    rw [pow_add, ← Nat.mul_assoc]
    exact Nat.mul_lt_mul_right hpos
  have h2 : (2 ^ (t + k) < 2 * (M % 2 ^ t * 2 ^ k)) ↔ (2 ^ t < 2 * (M % 2 ^ t)) := by
    rw [pow_add, ← Nat.mul_assoc]
    exact Nat.mul_lt_mul_right hpos
  simp only [h1, h2]

theorem log2_zero : Nat.log2 0 = 0 := by
  rw [Nat.log2]
  simp

theorem excessBits_eq_zero_iff (A : Nat) : excessBits A = 0 ↔ A < 2 ^ 53 := by
  unfold excessBits
  rcases Nat.eq_zero_or_pos A with h0 | hpos
  · subst h0
    simp [log2_zero]
  · have hne : A ≠ 0 := Nat.pos_iff_ne_zero.1 hpos
    rw [← Nat.log2_lt hne]
    omega

theorem excessBits_pos (A : Nat) (h : 0 < excessBits A) :
    2 ^ (52 + excessBits A) ≤ A ∧ A < 2 ^ (53 + excessBits A) := by
  have hne : A ≠ 0 := by
    intro h0
    subst h0
    simp [excessBits, log2_zero] at h
  have hlog : Nat.log2 A = 52 + excessBits A := by
    unfold excessBits at h ⊢
    omega
  constructor
  · rw [← hlog]
    exact Nat.log2_self_le hne
  · have := @Nat.lt_log2_self A
    rw [hlog] at this
    rw [show 53 + excessBits A = 52 + excessBits A + 1 by omega]
    exact this

theorem log2_mono (A B : Nat) (h : A ≤ B) : Nat.log2 A ≤ Nat.log2 B := by
  rcases Nat.eq_zero_or_pos A with h0 | hpos
  · subst h0
    rw [log2_zero]
    exact Nat.zero_le _
  · have hneA : A ≠ 0 := Nat.pos_iff_ne_zero.1 hpos
    have hneB : B ≠ 0 := by omega
    exact (Nat.le_log2 hneB).2 (le_trans (Nat.log2_self_le hneA) h)

theorem excessBits_mono (A B : Nat) (h : A ≤ B) : excessBits A ≤ excessBits B := by
  have := log2_mono A B h
  unfold excessBits
  omega

theorem log2_mul_pow (A k : Nat) (h : A ≠ 0) : Nat.log2 (A * 2 ^ k) = Nat.log2 A + k := by
  have hpos : 0 < 2 ^ k := Nat.pow_pos (by norm_num)
  have hne : A * 2 ^ k ≠ 0 := Nat.mul_ne_zero h (by omega)
  apply le_antisymm
  · have hlt : A * 2 ^ k < 2 ^ (Nat.log2 A + k + 1) := by
      rw [show Nat.log2 A + k + 1 = (Nat.log2 A + 1) + k by omega, pow_add]
      exact Nat.mul_lt_mul_of_pos_right Nat.lt_log2_self hpos
    have := (Nat.log2_lt hne).2 hlt
    omega
  · apply (Nat.le_log2 hne).2
    rw [pow_add]
    exact Nat.mul_le_mul_right _ (Nat.log2_self_le h)

theorem round53_of_lt (A : Nat) (h : A < 2 ^ 53) : round53 A = A := by
  unfold round53
  rw [(excessBits_eq_zero_iff A).2 h, roundHalfEven_zero]
  simp

theorem round53_scale (A k : Nat) : round53 (A * 2 ^ k) = round53 A * 2 ^ k := by
  rcases Nat.eq_zero_or_pos A with h0 | hpos
  · subst h0
    simp [round53, roundHalfEven, excessBits, log2_zero]
  have hne : A ≠ 0 := Nat.pos_iff_ne_zero.1 hpos
  rcases Nat.eq_zero_or_pos (excessBits A) with ht | ht
  · have hlt : A < 2 ^ 53 := (excessBits_eq_zero_iff A).1 ht
    rw [round53_of_lt A hlt]
    have hle : excessBits (A * 2 ^ k) ≤ k := by
      have hlog := log2_mul_pow A k hne
      unfold excessBits at ht ⊢
      omega
    unfold round53
    have hdvd : 2 ^ excessBits (A * 2 ^ k) ∣ A * 2 ^ k :=
      Dvd.dvd.mul_left (pow_dvd_pow 2 hle) A
    rw [roundHalfEven_of_dvd _ _ hdvd]
    exact Nat.div_mul_cancel hdvd
  · have hex : excessBits (A * 2 ^ k) = excessBits A + k := by
      have hlog := log2_mul_pow A k hne
      unfold excessBits at ht ⊢
      omega
    unfold round53
    rw [hex, roundHalfEven_scale, pow_add, Nat.mul_assoc]

theorem round53_le_pow (A : Nat) : round53 A ≤ 2 ^ (53 + excessBits A) := by
  have hpos : 0 < 2 ^ excessBits A := Nat.pow_pos (by norm_num)
  have hA : A < 2 ^ (53 + excessBits A) := by
    rcases Nat.eq_zero_or_pos (excessBits A) with ht | ht
    · rw [ht]
      exact (excessBits_eq_zero_iff A).1 ht
    · exact (excessBits_pos A ht).2
  have hq : A / 2 ^ excessBits A < 2 ^ 53 := by
    rw [Nat.div_lt_iff_lt_mul hpos, ← pow_add]
    exact hA
  have hr := (roundHalfEven_bounds A (excessBits A)).2
  unfold round53
  rw [pow_add]
  exact Nat.mul_le_mul_right _ (by omega)

theorem pow_le_round53 (B : Nat) (h : 0 < excessBits B) :
    2 ^ (52 + excessBits B) ≤ round53 B := by
  have hpos : 0 < 2 ^ excessBits B := Nat.pow_pos (by norm_num)
  have hB := (excessBits_pos B h).1
  have hq : 2 ^ 52 ≤ B / 2 ^ excessBits B := by
    rw [Nat.le_div_iff_mul_le hpos, ← pow_add]
    exact hB
  have hr := (roundHalfEven_bounds B (excessBits B)).1
  unfold round53
  rw [pow_add]
  exact Nat.mul_le_mul_right _ (by omega)

theorem round53_mono (A B : Nat) (h : A ≤ B) : round53 A ≤ round53 B := by
  have hle := excessBits_mono A B h
  rcases Nat.lt_or_ge (excessBits A) (excessBits B) with hlt | hge
  · have h1 := round53_le_pow A
    have h2 := pow_le_round53 B (by omega)
    have h3 : 2 ^ (53 + excessBits A) ≤ 2 ^ (52 + excessBits B) :=
      Nat.pow_le_pow_right (by norm_num) (by omega)
    omega
  · have heq : excessBits A = excessBits B := le_antisymm hle hge
    unfold round53
    rw [heq]
    exact Nat.mul_le_mul_right _ (roundHalfEven_mono A B _ h)

theorem zpow_split (e : Int) (k : Nat) :
    (2 : ℚ) ^ (e + (k : Int)) = (2 : ℚ) ^ k * (2 : ℚ) ^ e := by
  rw [zpow_add₀ (by norm_num : (2 : ℚ) ≠ 0), zpow_natCast, mul_comm]

theorem mul1e3_toRat (s : Double) (hs : s.neg = false) :
    s.mul1e3.toRat = (round53 (1000 * s.m) : ℚ) * (2 : ℚ) ^ s.e := by
  simp only [Double.toRat, Double.mul1e3, hs, round53]
  rw [zpow_split]
  push_cast
  ring

theorem round53_value_mono (A B : Nat) (e f : Int)
    (h : (A : ℚ) * (2 : ℚ) ^ e ≤ (B : ℚ) * (2 : ℚ) ^ f) :
    (round53 A : ℚ) * (2 : ℚ) ^ e ≤ (round53 B : ℚ) * (2 : ℚ) ^ f := by
  have hpe : (0 : ℚ) < (2 : ℚ) ^ e := zpow_pos (by norm_num) e
  have hpf : (0 : ℚ) < (2 : ℚ) ^ f := zpow_pos (by norm_num) f
  rcases le_total e f with hef | hfe
  · obtain ⟨k, hk⟩ := Int.le.dest hef
    subst hk
    rw [zpow_split] at h ⊢
    have h1 : (A : ℚ) ≤ ((B * 2 ^ k : Nat) : ℚ) := by
      push_cast
      have hmul : (A : ℚ) * 2 ^ e ≤ (B * 2 ^ k) * 2 ^ e := by linarith [h]
      exact le_of_mul_le_mul_right hmul hpe
    have h2 : A ≤ B * 2 ^ k := by exact_mod_cast h1
    have h3 := round53_mono A (B * 2 ^ k) h2
    rw [round53_scale] at h3
    have h4 : (round53 A : ℚ) ≤ (round53 B : ℚ) * 2 ^ k := by exact_mod_cast h3
    calc (round53 A : ℚ) * 2 ^ e ≤ ((round53 B : ℚ) * 2 ^ k) * 2 ^ e :=
          mul_le_mul_of_nonneg_right h4 hpe.le
      _ = (round53 B : ℚ) * (2 ^ k * 2 ^ e) := by ring
  · obtain ⟨k, hk⟩ := Int.le.dest hfe
    subst hk
    rw [zpow_split] at h ⊢
    have h1 : ((A * 2 ^ k : Nat) : ℚ) ≤ (B : ℚ) := by
      push_cast
      have hmul : ((A : ℚ) * 2 ^ k) * 2 ^ f ≤ B * 2 ^ f := by linarith [h]
      exact le_of_mul_le_mul_right hmul hpf
    have h2 : A * 2 ^ k ≤ B := by exact_mod_cast h1
    have h3 := round53_mono (A * 2 ^ k) B h2
    rw [round53_scale] at h3
    have h4 : (round53 A : ℚ) * 2 ^ k ≤ (round53 B : ℚ) := by exact_mod_cast h3
    calc (round53 A : ℚ) * (2 ^ k * 2 ^ f) = ((round53 A : ℚ) * 2 ^ k) * 2 ^ f := by ring
      _ ≤ (round53 B : ℚ) * 2 ^ f := mul_le_mul_of_nonneg_right h4 hpf.le

theorem truncate_eq_floor (m : Nat) (e : Int) :
    (if 0 ≤ e then m * 2 ^ e.toNat else m / 2 ^ (-e).toNat) =
      ⌊(m : ℚ) * (2 : ℚ) ^ e⌋₊ := by
  split_ifs with h
  · obtain ⟨k, hk⟩ := Int.eq_ofNat_of_zero_le h
    subst hk
    rw [Int.toNat_ofNat, zpow_natCast]
    have : ((m : ℚ) * 2 ^ k) = ((m * 2 ^ k : Nat) : ℚ) := by push_cast; ring
    rw [this, Nat.floor_natCast]
  · have hneg : 0 ≤ -e := by omega
    obtain ⟨k, hk⟩ := Int.eq_ofNat_of_zero_le hneg
    have he : e = -(k : Int) := by omega
    rw [hk, Int.toNat_ofNat, he, zpow_neg, zpow_natCast]
    have : ((m : ℚ) * ((2 : ℚ) ^ k)⁻¹) = (m : ℚ) / ((2 ^ k : Nat) : ℚ) := by
      push_cast
      rw [div_eq_mul_inv]
    rw [this, Nat.floor_div_eq_div]

theorem static_cast_eq (d : Double) (hd : d.neg = false) :
    static_cast_size_t d =
      if ⌊d.toRat⌋₊ < 2 ^ 64 then some ⌊d.toRat⌋₊ else none := by
  have hval : d.toRat = (d.m : ℚ) * (2 : ℚ) ^ d.e := by simp [Double.toRat, hd]
  simp only [static_cast_size_t, hd, Bool.false_eq_true, if_false]
  rw [truncate_eq_floor, hval]

theorem timeDuration_eq (s : Double) (hs : s.neg = false) :
    TimeDurationFromSeconds s =
      if ⌊s.mul1e3.toRat⌋₊ < 2 ^ 64 then some ⟨⌊s.mul1e3.toRat⌋₊⟩ else none := by
  have hneg : s.mul1e3.neg = false := hs
  unfold TimeDurationFromSeconds
  rw [static_cast_eq _ hneg]
  split_ifs <;> rfl

theorem roundHalfEven_1000_lt (m t : Nat) (h1 : 1 ≤ t) (h2 : t ≤ 10)
    (hM : 1000 * m < 2 ^ (53 + t)) : roundHalfEven (1000 * m) t < 2 ^ 53 := by
  by_contra hcon
  have hge : 2 ^ 53 ≤ roundHalfEven (1000 * m) t := Nat.le_of_not_lt hcon
  have herr := (roundHalfEven_error (1000 * m) t).1
  have hmul : 2 ^ 53 * 2 ^ t ≤ roundHalfEven (1000 * m) t * 2 ^ t :=
    Nat.mul_le_mul_right _ hge
  generalize roundHalfEven (1000 * m) t * 2 ^ t = v at herr hmul
  interval_cases t <;> norm_num at hM herr hmul <;> omega

theorem round53_1000_lt (m k : Nat) (hm : m < 2 ^ 53) (h : 1000 * m < 2 ^ k) :
    round53 (1000 * m) < 2 ^ k := by
  rcases Nat.eq_zero_or_pos (excessBits (1000 * m)) with ht | ht
  · rw [round53_of_lt _ ((excessBits_eq_zero_iff _).1 ht)]
    exact h
  · obtain ⟨hlo, hhi⟩ := excessBits_pos _ ht
    have h63 : 1000 * m < 2 ^ 63 := by
      have : (2 : Nat) ^ 63 = 1024 * 2 ^ 53 := by norm_num
      omega
    have ht10 : excessBits (1000 * m) ≤ 10 := by
      by_contra hcon
      have : 2 ^ 63 ≤ 2 ^ (52 + excessBits (1000 * m)) :=
        Nat.pow_le_pow_right (by norm_num) (by omega)
      omega
    have hk : 53 + excessBits (1000 * m) ≤ k := by
      by_contra hcon
      have : 2 ^ k ≤ 2 ^ (52 + excessBits (1000 * m)) :=
        Nat.pow_le_pow_right (by norm_num) (by omega)
      omega
    have hr := roundHalfEven_1000_lt m _ ht ht10 hhi
    have hpos : 0 < 2 ^ excessBits (1000 * m) := Nat.pow_pos (by norm_num)
    calc round53 (1000 * m) < 2 ^ 53 * 2 ^ excessBits (1000 * m) :=
          Nat.mul_lt_mul_of_pos_right hr hpos
      _ = 2 ^ (53 + excessBits (1000 * m)) := (pow_add _ _ _).symm
      _ ≤ 2 ^ k := Nat.pow_le_pow_right (by norm_num) hk

theorem toRat_nonneg (s : Double) (hs : s.neg = false) :
    s.toRat = (s.m : ℚ) * (2 : ℚ) ^ s.e := by
  simp [Double.toRat, hs]

theorem mul1e3_mono (s1 s2 : Double) (h1 : s1.neg = false) (h2 : s2.neg = false)
    (h : s1.toRat ≤ s2.toRat) : s1.mul1e3.toRat ≤ s2.mul1e3.toRat := by
  rw [mul1e3_toRat s1 h1, mul1e3_toRat s2 h2]
  apply round53_value_mono
  rw [toRat_nonneg s1 h1, toRat_nonneg s2 h2] at h
  push_cast
  nlinarith

theorem mul1e3_exact (s : Double) (hs : s.neg = false) (m' : Nat) (e' : Int)
    (hm : m' < 2 ^ 53) (h : 1000 * s.toRat = (m' : ℚ) * (2 : ℚ) ^ e') :
    s.mul1e3.toRat = 1000 * s.toRat := by
  rw [mul1e3_toRat s hs]
  have hval : ((1000 * s.m : Nat) : ℚ) * (2 : ℚ) ^ s.e = (m' : ℚ) * (2 : ℚ) ^ e' := by
    rw [← h, toRat_nonneg s hs]
    push_cast
    ring
  have hle := round53_value_mono (1000 * s.m) m' s.e e' hval.le
  have hge := round53_value_mono m' (1000 * s.m) e' s.e hval.ge
  rw [round53_of_lt m' hm] at hle hge
  rw [h]
  exact le_antisymm hle hge

theorem mul1e3_lt_one (s : Double) (hs : s.neg = false) (hm : s.m < 2 ^ 53)
    (h : s.toRat < 1 / 1000) : s.mul1e3.toRat < 1 := by
  rw [mul1e3_toRat s hs]
  rw [toRat_nonneg s hs] at h
  have hx : ((1000 * s.m : Nat) : ℚ) * (2 : ℚ) ^ s.e < 1 := by
    push_cast
    linarith
  rcases le_or_lt 0 s.e with he | he
  · obtain ⟨k, hk⟩ := Int.eq_ofNat_of_zero_le he
    rw [hk, zpow_natCast] at hx ⊢
    have h1 : ((1000 * s.m * 2 ^ k : Nat) : ℚ) < ((1 : Nat) : ℚ) := by
      push_cast
      push_cast at hx
      linarith
    have h2 : 1000 * s.m * 2 ^ k < 1 := by exact_mod_cast h1
    have hpos : 0 < 2 ^ k := Nat.pow_pos (by norm_num)
    have h3 : 1000 * s.m = 0 := by
      rcases Nat.eq_zero_or_pos (1000 * s.m) with h0 | hp
      · exact h0
      · have := Nat.mul_pos hp hpos
        omega
    rw [h3, round53_of_lt 0 (by norm_num)]
    simp
  · have hneg : 0 ≤ -s.e := by omega
    obtain ⟨k, hk⟩ := Int.eq_ofNat_of_zero_le hneg
    have hek : s.e = -(k : Int) := by omega
    rw [hek, zpow_neg, zpow_natCast] at hx ⊢
    have hpk : (0 : ℚ) < (2 : ℚ) ^ k := by positivity
    have h1 : ((1000 * s.m : Nat) : ℚ) < ((2 ^ k : Nat) : ℚ) := by
      push_cast
      have := (mul_inv_lt_iff₀ hpk).1 hx
      push_cast at this
      linarith
    have h2 : 1000 * s.m < 2 ^ k := by exact_mod_cast h1
    have h3 := round53_1000_lt s.m k hm h2
    have h4 : (round53 (1000 * s.m) : ℚ) < (2 : ℚ) ^ k := by exact_mod_cast h3
    rw [mul_inv_lt_iff₀ hpk]
    linarith

theorem mul1e3_nonneg (s : Double) (hs : s.neg = false) : 0 ≤ s.mul1e3.toRat := by
  rw [mul1e3_toRat s hs]
  positivity

theorem mul1e3_error (s : Double) (hs : s.neg = false) :
    |s.mul1e3.toRat - 1000 * s.toRat| * 2 ≤
      (2 : ℚ) ^ (s.e + (excessBits (1000 * s.m) : Int)) := by
  rw [mul1e3_toRat s hs, toRat_nonneg s hs, zpow_split]
  obtain ⟨h1, h2⟩ := roundHalfEven_error (1000 * s.m) (excessBits (1000 * s.m))
  have h1q : (2 : ℚ) * (round53 (1000 * s.m) : ℚ) ≤
      2 * (1000 * s.m : ℚ) + 2 ^ excessBits (1000 * s.m) := by
    unfold round53
    exact_mod_cast h1
  have h2q : (2 : ℚ) * (1000 * s.m : ℚ) ≤
      2 * (round53 (1000 * s.m) : ℚ) + 2 ^ excessBits (1000 * s.m) := by
    unfold round53
    exact_mod_cast h2
  have hpe : (0 : ℚ) < (2 : ℚ) ^ s.e := zpow_pos (by norm_num) s.e
  have habs : |(round53 (1000 * s.m) : ℚ) - 1000 * s.m| ≤
      2 ^ excessBits (1000 * s.m) / 2 :=
    abs_le.2 ⟨by linarith, by linarith⟩
  have hfac : (round53 (1000 * s.m) : ℚ) * (2 : ℚ) ^ s.e - 1000 * ((s.m : ℚ) * (2 : ℚ) ^ s.e) =
      ((round53 (1000 * s.m) : ℚ) - 1000 * s.m) * (2 : ℚ) ^ s.e := by ring
  rw [hfac, abs_mul, abs_of_pos hpe]
  nlinarith [mul_le_mul_of_nonneg_right habs hpe.le]

/-- C10, amended: for a non-negative `double` `s`, `TimeDurationFromSeconds(s)` is
the duration of `floor(p)` milliseconds whenever the `double` product
`p = 1e3 * s` is below `2^64`; `p` is `1000 * s` rounded to 53 significant bits,
within half a unit in the last place of `1000 * s` and even in the last place
when `1000 * s` lies half-way. The duration is
`floor(1000 * s)` milliseconds whenever `1000 * s` is itself a `double`, so whole
seconds `n` with `1000 * n < 2^53` give `1000 * n` milliseconds; every `s` below
0.001 gives the zero duration; and the duration is monotone non-decreasing in
`s`. -/
theorem timeDurationFromSeconds_rounds (s : Double) (hs : s.neg = false) :
    (s.mul1e3.toRat < 2 ^ 64 →
      TimeDurationFromSeconds s = some (time_duration.milliseconds ⌊s.mul1e3.toRat⌋₊)) ∧
    |s.mul1e3.toRat - 1000 * s.toRat| * 2 ≤
      (2 : ℚ) ^ (s.e + (excessBits (1000 * s.m) : Int)) ∧
    s.mul1e3.m ≤ 2 ^ 53 ∧
    (2 * (1000 * s.m % 2 ^ excessBits (1000 * s.m)) = 2 ^ excessBits (1000 * s.m) →
      s.mul1e3.m % 2 = 0) ∧
    (∀ (m' : Nat) (e' : Int), m' < 2 ^ 53 → 1000 * s.toRat = (m' : ℚ) * (2 : ℚ) ^ e' →
      1000 * s.toRat < 2 ^ 64 →
      TimeDurationFromSeconds s = some (time_duration.milliseconds ⌊1000 * s.toRat⌋₊)) ∧
    (∀ n : Nat, s.toRat = n → 1000 * n < 2 ^ 53 →
      TimeDurationFromSeconds s = some (time_duration.milliseconds (1000 * n))) ∧
    (s.m < 2 ^ 53 → s.toRat < 1 / 1000 →
      TimeDurationFromSeconds s = some (time_duration.milliseconds 0)) ∧
    (∀ s2 : Double, s2.neg = false → s.toRat ≤ s2.toRat →
      ∀ d2, TimeDurationFromSeconds s2 = some d2 →
        ∃ d1, TimeDurationFromSeconds s = some d1 ∧ d1.count ≤ d2.count) := by
  have hnn := mul1e3_nonneg s hs
  have hfits : ∀ x : ℚ, s.mul1e3.toRat = x → x < 2 ^ 64 →
      TimeDurationFromSeconds s = some (time_duration.milliseconds ⌊x⌋₊) := by
    intro x hx hlt
    subst hx
    rw [timeDuration_eq s hs]
    have : ⌊s.mul1e3.toRat⌋₊ < 2 ^ 64 := by
      rw [Nat.floor_lt hnn]
      exact_mod_cast hlt
    rw [if_pos this]
    rfl
  refine ⟨hfits _ rfl, mul1e3_error s hs, ?_, ?_, ?_, ?_, ?_, ?_⟩
  · have hb := round53_le_pow (1000 * s.m)
    have hpos : 0 < 2 ^ excessBits (1000 * s.m) := Nat.pow_pos (by norm_num)
    unfold round53 at hb
    rw [pow_add] at hb
    exact Nat.le_of_mul_le_mul_right hb hpos
  · intro htie
    exact roundHalfEven_tie_even _ _ htie
  · intro m' e' hm' hrep hlt
    exact hfits _ (mul1e3_exact s hs m' e' hm' hrep) hlt
  · intro n hn hlt
    have hrep : 1000 * s.toRat = ((1000 * n : Nat) : ℚ) * (2 : ℚ) ^ (0 : Int) := by
      rw [hn]
      push_cast
      simp
    have h1 := hfits _ (mul1e3_exact s hs (1000 * n) 0 hlt hrep)
      (by
        rw [hn]
        have : (1000 * n : ℚ) < 2 ^ 53 := by exact_mod_cast hlt
        linarith [show (2 : ℚ) ^ 53 < 2 ^ 64 by norm_num])
    rw [h1, hn]
    have : (1000 * (n : ℚ)) = ((1000 * n : Nat) : ℚ) := by push_cast; ring
    rw [this, Nat.floor_natCast]
  · intro hm hlt
    have hone := mul1e3_lt_one s hs hm hlt
    have h1 := hfits _ rfl (by linarith [show (1 : ℚ) < 2 ^ 64 by norm_num])
    rw [h1, Nat.floor_eq_zero.2 hone]
  · intro s2 hs2 hle d2 hd2
    have hmono := mul1e3_mono s s2 hs hs2 hle
    rw [timeDuration_eq s2 hs2] at hd2
    split_ifs at hd2 with hlt2
    have hd2c : d2.count = ⌊s2.mul1e3.toRat⌋₊ := by
      cases hd2
      rfl
    have hfl : ⌊s.mul1e3.toRat⌋₊ ≤ ⌊s2.mul1e3.toRat⌋₊ := Nat.floor_mono hmono
    refine ⟨⟨⌊s.mul1e3.toRat⌋₊⟩, ?_, ?_⟩
    · rw [timeDuration_eq s hs, if_pos (by omega)]
    · rw [hd2c]
      exact hfl

/-- The durations of 1.5 seconds, of 2 seconds and of `2^-10` seconds, and the
product for a number of seconds that lies half-way. -/
theorem timeDurationFromSeconds_rounds_witness :
    double_1_5.neg = false ∧
    (3 : Nat) < 2 ^ 53 ∧
    1000 * double_1_5.toRat = ((1500 : Nat) : ℚ) * (2 : ℚ) ^ (0 : Int) ∧
    1000 * double_1_5.toRat < 2 ^ 64 ∧
    TimeDurationFromSeconds double_1_5 =
      some (time_duration.milliseconds ⌊1000 * double_1_5.toRat⌋₊) ∧
    double_2.neg = false ∧
    double_2.toRat = ((2 : Nat) : ℚ) ∧
    1000 * 2 < 2 ^ 53 ∧
    TimeDurationFromSeconds double_2 = some (time_duration.milliseconds (1000 * 2)) ∧
    double_2_pow_neg_10.neg = false ∧
    double_2_pow_neg_10.m < 2 ^ 53 ∧
    double_2_pow_neg_10.toRat < 1 / 1000 ∧
    TimeDurationFromSeconds double_2_pow_neg_10 = some (time_duration.milliseconds 0) ∧
    double_2_pow_neg_10.toRat ≤ double_2.toRat ∧
    (∃ d1, TimeDurationFromSeconds double_2_pow_neg_10 = some d1 ∧
      d1.count ≤ (time_duration.milliseconds (1000 * 2)).count) ∧
    double_tie.neg = false ∧
    2 * (1000 * double_tie.m % 2 ^ excessBits (1000 * double_tie.m)) =
      2 ^ excessBits (1000 * double_tie.m) ∧
    double_tie.mul1e3.m % 2 = 0 := by
  have h15 : double_1_5.toRat = 3 / 2 := by
    simp only [Double.toRat, double_1_5]
    norm_num
  have h2 : double_2.toRat = 2 := by
    simp only [Double.toRat, double_2]
    norm_num
  have hsmall : double_2_pow_neg_10.toRat = 1 / 1024 := by
    simp only [Double.toRat, double_2_pow_neg_10]
    norm_num
  have hrep : 1000 * double_1_5.toRat = ((1500 : Nat) : ℚ) * (2 : ℚ) ^ (0 : Int) := by
    rw [h15]
    norm_num
  have hfit : 1000 * double_1_5.toRat < 2 ^ 64 := by
    rw [h15]
    norm_num
  have hwhole : double_2.toRat = ((2 : Nat) : ℚ) := by
    rw [h2]
    norm_num
  have hlt : double_2_pow_neg_10.toRat < 1 / 1000 := by
    rw [hsmall]
    norm_num
  have hle : double_2_pow_neg_10.toRat ≤ double_2.toRat := by
    rw [hsmall, h2]
    norm_num
  have hm : double_2_pow_neg_10.m < 2 ^ 53 := by
    have : double_2_pow_neg_10.m = 1 := rfl
    rw [this]
    norm_num
  have hsec := (timeDurationFromSeconds_rounds double_2 rfl).2.2.2.2.2.1 2 hwhole
    (by norm_num)
  have hlog : Nat.log2 72057594037929000 = 56 := by
    have h1 : Nat.log2 72057594037929000 < 57 := (Nat.log2_lt (by norm_num)).2 (by norm_num)
    have h2 : 56 ≤ Nat.log2 72057594037929000 := (Nat.le_log2 (by norm_num)).2 (by norm_num)
    generalize Nat.log2 72057594037929000 = L at h1 h2 ⊢
    omega
  have hex : excessBits 72057594037929000 = 4 := by
    rw [excessBits, hlog]
  have htie : 2 * (1000 * double_tie.m % 2 ^ excessBits (1000 * double_tie.m)) =
      2 ^ excessBits (1000 * double_tie.m) := by
    have hM : 1000 * double_tie.m = 72057594037929000 := by decide
    rw [hM, hex]
    norm_num
  exact ⟨rfl, by norm_num, hrep, hfit,
    (timeDurationFromSeconds_rounds double_1_5 rfl).2.2.2.2.1 1500 0 (by norm_num) hrep hfit,
    rfl, hwhole, by norm_num, hsec,
    rfl, hm, hlt,
    (timeDurationFromSeconds_rounds double_2_pow_neg_10 rfl).2.2.2.2.2.2.1 hm hlt,
    hle,
    (timeDurationFromSeconds_rounds double_2_pow_neg_10 rfl).2.2.2.2.2.2.2 double_2 rfl hle _
      hsec,
    rfl, htie,
    (timeDurationFromSeconds_rounds double_tie rfl).2.2.2.1 htie⟩

theorem log2_0_29 : Nat.log2 5224175567749775000 = 62 := by
  have h1 : Nat.log2 5224175567749775000 < 63 := (Nat.log2_lt (by norm_num)).2 (by norm_num)
  have h2 : 62 ≤ Nat.log2 5224175567749775000 := (Nat.le_log2 (by norm_num)).2 (by norm_num)
  generalize Nat.log2 5224175567749775000 = L at h1 h2 ⊢
  omega

theorem excessBits_0_29 : excessBits 5224175567749775000 = 10 := by
  rw [excessBits, log2_0_29]

theorem roundHalfEven_0_29 : roundHalfEven 5224175567749775000 10 = 5101733952880640 := by
  decide

theorem mul1e3_0_29 :
    double_0_29.mul1e3 = { neg := false, m := 5101733952880640, e := -44 } := by
  have hM : 1000 * double_0_29.m = 5224175567749775000 := by decide
  have hE : (-54 : Int) + ((10 : Nat) : Int) = -44 := by decide
  have h : double_0_29.mul1e3 =
      { neg := double_0_29.neg,
        m := roundHalfEven (1000 * double_0_29.m) (excessBits (1000 * double_0_29.m)),
        e := double_0_29.e + (excessBits (1000 * double_0_29.m) : Nat) } := rfl
  rw [h, hM, excessBits_0_29, roundHalfEven_0_29]
  show ({ neg := false, m := 5101733952880640, e := (-54 : Int) + ((10 : Nat) : Int) } :
    Double) = _
  rw [hE]

/-- C10, as stated, fails: for the `double` nearest to 0.29 the floor of
`1000 * s` is 289, while the `double` product `1e3 * s` rounds up to 290 and
`TimeDurationFromSeconds` returns 290 milliseconds. -/
theorem timeDurationFromSeconds_0_29 :
    double_0_29.neg = false ∧ double_0_29.m < 2 ^ 53 ∧
    -1074 ≤ double_0_29.e ∧ double_0_29.e ≤ 971 ∧
    |double_0_29.toRat - 29 / 100| * 2 ≤ (2 : ℚ) ^ (-54 : Int) ∧
    1000 * double_0_29.toRat < 2 ^ 64 ∧
    ⌊1000 * double_0_29.toRat⌋₊ = 289 ∧
    TimeDurationFromSeconds double_0_29 = some (time_duration.milliseconds 290) ∧
    TimeDurationFromSeconds double_0_29 ≠
      some (time_duration.milliseconds ⌊1000 * double_0_29.toRat⌋₊) := by
  have hval : double_0_29.toRat = 5224175567749775 / 2 ^ 54 := by
    simp only [Double.toRat, double_0_29]
    norm_num
  have hfloor : ⌊1000 * double_0_29.toRat⌋₊ = 289 := by
    rw [hval, Nat.floor_eq_iff (by norm_num)]
    norm_num
  have hprod : double_0_29.mul1e3.toRat = ((290 : Nat) : ℚ) := by
    rw [mul1e3_0_29]
    simp only [Double.toRat]
    norm_num
  have hcode : TimeDurationFromSeconds double_0_29 = some (time_duration.milliseconds 290) := by
    rw [timeDuration_eq double_0_29 rfl, hprod, Nat.floor_natCast, if_pos (by norm_num)]
    rfl
  have hm : double_0_29.m = 5224175567749775 := rfl
  have he : double_0_29.e = -54 := rfl
  refine ⟨rfl, by rw [hm]; norm_num, by rw [he]; norm_num, by rw [he]; norm_num, ?_, ?_,
    hfloor, hcode, ?_⟩
  · rw [hval]
    have habs : |(5224175567749775 : ℚ) / 2 ^ 54 - 29 / 100| ≤ (2 : ℚ) ^ (-54 : Int) / 2 :=
      abs_le.2 ⟨by norm_num, by norm_num⟩
    linarith
  · rw [hval]
    norm_num
  · rw [hcode, hfloor]
    intro h
    have h2 : (290 : Nat) = 289 := congrArg time_duration.count (Option.some.inj h)
    omega


end Properties

end Libcarla
